import Mathlib

/-!
# Trust store of microcluster: a shallow embedding

The development embeds `internal/trust/remotes.go` (the `Remotes` trust store)
together with the parts of the Go standard library it calls.

* Go strings are Lean strings; the `strings` and `path/filepath` functions are
  defined on the characters of a string by structural recursion.
* The file system is explicit state: a finite table from absolute paths (lists
  of components) to nodes, plus the working directory.  The `os` calls and
  `renameio.WriteFile` are functions on that state and fail with an `Errno`
  as the POSIX calls do (missing entry, not a directory, is a directory,
  directory not empty, permission denied).  Symbolic links are not modelled.
* A method of `*Remotes` that mutates the store and the disk is a function
  returning an `Outcome`: the returned error, the store and the file system
  after the call.  The `sync.RWMutex` is not modelled; calls are sequential.
* The in-memory `map[string]Remote` is a list of key/value pairs; the order of
  the list is the order in which `range` visits it, which Go leaves
  unspecified, so statements quantify over all lists.  The store is an
  initialised one: the map is non-nil, as `Load` and `Replace` leave it.
* `yaml.Marshal`, `yaml.Unmarshal` and `shared.CertFingerprint` belong to
  external libraries and are parameters.
* The endpoint type of `rest/types/addrport.go` and the statement registry of
  `cluster/stmt.go` are embedded as well; `net/netip`, `encoding/json` and the
  client constructor are parameters, the package variable `stmts` is passed
  in and out, and a run-time panic is a result of its own.
-/

deriving instance DecidableEq for Except

namespace Trust

/-! ## Strings -/

/-- Go `strings.HasPrefix(s, prefix)`. -/
def HasPrefix (s pre : String) : Bool :=
  pre.data.isPrefixOf s.data

/-- Go `strings.HasSuffix(s, suffix)`. -/
def HasSuffix (s suf : String) : Bool :=
  suf.data.reverse.isPrefixOf s.data.reverse

/-- Whether `sub` occurs in `cs` at some position. -/
def containsChars (sub : List Char) : List Char → Bool
  | [] => sub.isEmpty
  | c :: cs => sub.isPrefixOf (c :: cs) || containsChars sub cs

/-- Go `strings.Contains(s, substr)`. -/
def Contains (s substr : String) : Bool :=
  containsChars substr.data s.data

/-- Go `strings.CutSuffix(s, suffix)`: the string without the suffix and
whether the suffix was found. -/
def CutSuffix (s suf : String) : String × Bool :=
  if HasSuffix s suf then (⟨s.data.take (s.data.length - suf.data.length)⟩, true)
  else (s, false)

/-- The pieces of `cs` between occurrences of `sep` (Go `strings.Split` with a
one-character separator). -/
def splitChars (sep : Char) : List Char → List (List Char)
  | [] => [[]]
  | c :: cs =>
    if c = sep then [] :: splitChars sep cs
    else
      match splitChars sep cs with
      | [] => [[c]]
      | w :: ws => (c :: w) :: ws

/-- Joins pieces with `sep` between them (Go `strings.Join`). -/
def joinChars (sep : Char) : List (List Char) → List Char
  | [] => []
  | [w] => w
  | w :: ws => w ++ sep :: joinChars sep ws

/-- Byte-wise order of Go strings, strict. -/
def ltChars : List Char → List Char → Bool
  | _, [] => false
  | [], _ :: _ => true
  | a :: as, b :: bs => a.toNat < b.toNat || (a.toNat = b.toNat && ltChars as bs)

/-! ## path/filepath (Unix) -/

/-- One step of `filepath.Clean` over the stack of kept components (top
first): empty and `.` components are dropped, `..` removes the component
before it, is dropped at the root, and is kept at the start of a relative
path. -/
def cleanStep (rooted : Bool) (stack : List (List Char)) (c : List Char) :
    List (List Char) :=
  if c = [] ∨ c = ['.'] then stack
  else if c = ['.', '.'] then
    match stack with
    | [] => if rooted then [] else [c]
    | top :: below => if top = ['.', '.'] then c :: top :: below else below
  else c :: stack

/-- Go `filepath.Clean`. -/
def Clean (path : String) : String :=
  if path.data = [] then "."
  else
    let rooted := path.data.head? = some '/'
    let kept := ((splitChars '/' path.data).foldl (cleanStep rooted) []).reverse
    let out := (if rooted then ['/'] else []) ++ joinChars '/' kept
    if out = [] then "." else ⟨out⟩

/-- Go `filepath.Join` of two elements: empty elements are ignored, the rest
is joined with the separator and cleaned. -/
def Join (a b : String) : String :=
  if a ≠ "" then Clean (a ++ "/" ++ b)
  else if b ≠ "" then Clean b
  else ""

/-- Go `filepath.IsAbs` on Unix. -/
def IsAbs (path : String) : Bool :=
  HasPrefix path "/"

/-! ## The file system -/

/-- An absolute path, as the list of its components below the root. -/
abbrev Path := List String

/-- A file-system node: a directory, or a regular file with its content and
whether it may be opened for reading. -/
inductive Node where
  | dir
  | file (readable : Bool) (content : String)
  deriving DecidableEq, Repr

/-- The errors of the system calls that the model distinguishes. -/
inductive Errno where
  | ENOENT
  | ENOTDIR
  | EISDIR
  | ENOTEMPTY
  | EACCES
  | EBUSY
  deriving DecidableEq, Repr

/-- The state of the file system: the table of the nodes other than the root,
one entry per path, and the working directory of the process. -/
structure FS where
  nodes : List (Path × Node)
  cwd : Path
  deriving DecidableEq, Repr

/-- The first node stored for `p` in a table. -/
def lookupNode (p : Path) : List (Path × Node) → Option Node
  | [] => none
  | (q, n) :: rest => if q = p then some n else lookupNode p rest

/-- The node at an absolute path; the root is always a directory. -/
def FS.nodeAt (fs : FS) (p : Path) : Option Node :=
  if p = [] then some Node.dir else lookupNode p fs.nodes

/-- The table without the entries for `p`. -/
def dropNode (p : Path) : List (Path × Node) → List (Path × Node)
  | [] => []
  | (q, n) :: rest => if q = p then dropNode p rest else (q, n) :: dropNode p rest

/-- The file system with the node at `p` set to `n`. -/
def FS.set (fs : FS) (p : Path) (n : Node) : FS :=
  { fs with nodes := (p, n) :: dropNode p fs.nodes }

/-- The file system without the node at `p`. -/
def FS.erase (fs : FS) (p : Path) : FS :=
  { fs with nodes := dropNode p fs.nodes }

/-- Path resolution from the directory `cur`: every directory passed through
must exist; empty and `.` components stay, `..` goes to the parent. -/
def FS.walk (fs : FS) : Path → List String → Except Errno Path
  | cur, [] => .ok cur
  | cur, c :: cs =>
    match fs.nodeAt cur with
    | none => .error Errno.ENOENT
    | some (Node.file _ _) => .error Errno.ENOTDIR
    | some Node.dir =>
      if c = "" ∨ c = "." then fs.walk cur cs
      else if c = ".." then fs.walk cur.dropLast cs
      else fs.walk (cur ++ [c]) cs

/-- The absolute path a path name denotes: resolution starts at the root for
a name beginning with `/` and at the working directory otherwise; the empty
name denotes nothing. -/
def FS.resolve (fs : FS) (name : String) : Except Errno Path :=
  if name.data = [] then .error Errno.ENOENT
  else
    fs.walk (if IsAbs name then [] else fs.cwd)
      ((splitChars '/' name.data).map String.mk)

/-- Go `os.Getwd`. -/
def FS.Getwd (fs : FS) : String :=
  ⟨'/' :: joinChars '/' (fs.cwd.map String.data)⟩

/-- Go `filepath.Abs` on Unix. -/
def FS.Abs (fs : FS) (path : String) : String :=
  if IsAbs path then Clean path else Join fs.Getwd path

/-- Go `os.Stat`: the node found stands for its `FileInfo`. -/
def FS.Stat (fs : FS) (name : String) : Except Errno Node :=
  match fs.resolve name with
  | .error e => .error e
  | .ok p =>
    match fs.nodeAt p with
    | none => .error Errno.ENOENT
    | some n => .ok n

/-- Go `os.ReadFile`. -/
def FS.ReadFile (fs : FS) (name : String) : Except Errno String :=
  match fs.resolve name with
  | .error e => .error e
  | .ok p =>
    match fs.nodeAt p with
    | none => .error Errno.ENOENT
    | some Node.dir => .error Errno.EISDIR
    | some (Node.file false _) => .error Errno.EACCES
    | some (Node.file true content) => .ok content

/-- A directory entry as `os.ReadDir` returns it: `Name()` and `IsDir()`. -/
structure DirEntry where
  Name : String
  IsDir : Bool
  deriving DecidableEq, Repr

/-- Inserts an entry into a list sorted by file name. -/
def insertEntry (e : DirEntry) : List DirEntry → List DirEntry
  | [] => [e]
  | x :: xs => if ltChars x.Name.data e.Name.data then x :: insertEntry e xs else e :: x :: xs

/-- The entries directly inside the directory `p`, in table order. -/
def childEntries (p : Path) : List (Path × Node) → List DirEntry
  | [] => []
  | (q, n) :: rest =>
    match q.getLast? with
    | none => childEntries p rest
    | some name =>
      if q.dropLast = p
      then ⟨name, decide (n = Node.dir)⟩ :: childEntries p rest
      else childEntries p rest

/-- Go `os.ReadDir`: the entries of a directory sorted by file name. -/
def FS.ReadDir (fs : FS) (name : String) : Except Errno (List DirEntry) :=
  match fs.resolve name with
  | .error e => .error e
  | .ok p =>
    match fs.nodeAt p with
    | none => .error Errno.ENOENT
    | some (Node.file _ _) => .error Errno.ENOTDIR
    | some Node.dir => .ok ((childEntries p fs.nodes).foldr insertEntry [])

/-- The call `renameio.WriteFile(name, data, 0644)`: the content is written to
a temporary file which is then renamed over `name`, so the target either
becomes a readable file with the new content or the file system is left as
it was.  The parent must be an existing directory and the target must not be
a directory. -/
def FS.WriteFile (fs : FS) (name : String) (data : String) : Except Errno FS :=
  match fs.resolve name with
  | .error e => .error e
  | .ok p =>
    if p = [] then .error Errno.EISDIR
    else
      match fs.nodeAt p.dropLast with
      | none => .error Errno.ENOENT
      | some (Node.file _ _) => .error Errno.ENOTDIR
      | some Node.dir =>
        match fs.nodeAt p with
        | some Node.dir => .error Errno.EISDIR
        | _ => .ok (fs.set p (Node.file true data))

/-- Go `os.Remove`: removes a file or an empty directory. -/
def FS.Remove (fs : FS) (name : String) : Except Errno FS :=
  match fs.resolve name with
  | .error e => .error e
  | .ok p =>
    if p = [] then .error Errno.EBUSY
    else
      match fs.nodeAt p with
      | none => .error Errno.ENOENT
      | some (Node.file _ _) => .ok (fs.erase p)
      | some Node.dir =>
        if childEntries p fs.nodes = [] then .ok (fs.erase p)
        else .error Errno.ENOTEMPTY

/-! ## The data model -/

/-- The zone marker of a `netip.Addr`: the zero address, an IPv4 address, an
IPv6 address without zone, or an IPv6 address with a zone name. -/
inductive netip.Zone where
  | z0
  | z4
  | z6noz
  | z6 (zone : String)
  deriving DecidableEq, Repr

/-- Go `netip.Addr`: the 128 address bits and the zone marker. -/
structure netip.Addr where
  hi : Nat
  lo : Nat
  z : netip.Zone
  deriving DecidableEq, Repr

/-- Go `netip.AddrPort`. -/
structure netip.AddrPort where
  ip : netip.Addr
  port : Nat
  deriving DecidableEq, Repr

/-- The type `types.AddrPort`, a wrapper of `netip.AddrPort`; `inner` is the
embedded field. -/
structure AddrPort where
  inner : netip.AddrPort
  deriving DecidableEq, Repr

/-- The zero value `AddrPort{}`. -/
def AddrPort.zero : AddrPort :=
  ⟨⟨⟨0, 0, netip.Zone.z0⟩, 0⟩⟩

/-- Go `x509.Certificate`, identified by its DER encoding. -/
structure Certificate where
  Raw : String
  deriving DecidableEq, Repr

/-- Modelled from the spec: the declaration of `types.X509Certificate` is not
among the sources; the store reads its `Certificate` field, a pointer to the
certificate, `none` for the nil pointer of a missing certificate. -/
structure X509Certificate where
  Certificate : Option Certificate
  deriving DecidableEq, Repr

/-- Configurable identifying information about a remote. -/
structure Location where
  Name : String
  Address : AddrPort
  deriving DecidableEq, Repr

/-- A remote: the content of one yaml file of the trust directory. -/
structure Remote extends Location where
  Certificate : X509Certificate
  deriving DecidableEq, Repr

/-- Modelled from the spec: the declaration of `types.ClusterMember` is not
among the sources; `Replace` reads the name, address and certificate of a
member, the triple the membership source supplies. -/
structure ClusterMember where
  Name : String
  Address : AddrPort
  Certificate : X509Certificate
  deriving DecidableEq, Repr

/-- The yaml library: `yaml.Marshal` of a remote and `yaml.Unmarshal` of a
file content into a zero remote, each with the message of its error. -/
structure Yaml where
  Marshal : Remote → Except String String
  Unmarshal : String → Except String Remote

/-- The errors the store returns, one constructor per message. -/
inductive Error where
  | emptyCertificate (name : String)
  | invalidName (name disallowed : String)
  | remoteExists (name : String)
  | marshalFailed (name cause : String)
  | invalidPath (name : String)
  | pathExists (path : String)
  | checkFailed (path : String) (e : Errno)
  | writeFailed (path : String) (e : Errno)
  | readDirFailed (dir : String) (e : Errno)
  | readFileFailed (fileName : String) (e : Errno)
  | parseFailed (fileName cause : String)
  | emptyRemotes
  | noRemotes
  | os (e : Errno)
  deriving DecidableEq, Repr

/-- A Go `map[string]Remote` in the order `range` visits it. -/
abbrev RemoteMap := List (String × Remote)

/-- The map lookup `m[k]` with its presence flag. -/
def RemoteMap.get (m : RemoteMap) (k : String) : Option Remote :=
  match m with
  | [] => none
  | (k1, v) :: rest => if k1 = k then some v else RemoteMap.get rest k

/-- The map assignment `m[k] = v`: the value of an existing key is replaced,
a new key is added. -/
def RemoteMap.set (m : RemoteMap) (k : String) (v : Remote) : RemoteMap :=
  match m with
  | [] => [(k, v)]
  | (k1, v1) :: rest => if k1 = k then (k, v) :: rest else (k1, v1) :: RemoteMap.set rest k v

/-- The keys of a map. -/
def RemoteMap.keys (m : RemoteMap) : List String :=
  m.map Prod.fst

/-- The trust store `Remotes`: its `data` map. -/
structure Remotes where
  data : RemoteMap
  deriving DecidableEq, Repr

/-- What a call that may change the store and the disk leaves behind: the
returned error (`none` for nil), the store and the file system. -/
structure Outcome where
  err : Option Error
  r : Remotes
  fs : FS
  deriving DecidableEq, Repr

/-! ## The trust store -/

/-- The list of disallowed substrings in remote names. -/
def disallowedFilenameSubcontents : List String :=
  ["..", "/", "\\"]

/-- Checks if the remote name contains any disallowed substring; `none` is
the nil error. -/
def validateRemoteName (name : String) : Option Error :=
  match disallowedFilenameSubcontents.find? (fun disallowed => Contains name disallowed) with
  | some disallowed => some (Error.invalidName name disallowed)
  | none => none

/-- Returns the path to the yaml file of a remote, checked to have the
directory as a prefix. -/
def remoteYamlPath (fs : FS) (dir name : String) : Except Error String :=
  let path := fs.Abs (Join dir (name ++ ".yaml"))
  if !HasPrefix path dir then .error (Error.invalidPath name)
  else .ok path

/-- The loop of `Load` over the directory entries, filling `remoteData`. -/
def loadEntries (y : Yaml) (fs : FS) (dir : String) :
    List DirEntry → RemoteMap → Except Error RemoteMap
  | [], remoteData => .ok remoteData
  | file :: files, remoteData =>
    let fileName := file.Name
    if file.IsDir || !HasSuffix fileName ".yaml" then loadEntries y fs dir files remoteData
    else
      match fs.ReadFile (Join dir fileName) with
      | .error e => .error (Error.readFileFailed fileName e)
      | .ok content =>
        match y.Unmarshal content with
        | .error cause => .error (Error.parseFailed fileName cause)
        | .ok remote =>
          if remote.Certificate.Certificate = none then
            .error (Error.emptyCertificate remote.Name)
          else loadEntries y fs dir files (remoteData.set remote.Name remote)

/-- Reads any yaml files in the given directory and parses them into a set of
remotes. -/
def Remotes.Load (y : Yaml) (r : Remotes) (fs : FS) (dir : String) : Outcome :=
  match fs.ReadDir dir with
  | .error e => ⟨some (Error.readDirFailed dir e), r, fs⟩
  | .ok files =>
    match loadEntries y fs dir files [] with
    | .error e => ⟨some e, r, fs⟩
    | .ok remoteData =>
      if remoteData.length = 0 ∧ r.data.length ≠ 0 then ⟨none, r, fs⟩
      else ⟨none, ⟨remoteData⟩, fs⟩

/-- The body of the loop of `Add` for one remote: the error, or the store and
the file system with the remote added. -/
def addRemote (y : Yaml) (dir : String) (r : Remotes) (fs : FS) (remote : Remote) :
    Except Error (Remotes × FS) :=
  if remote.Certificate.Certificate = none then .error (Error.emptyCertificate remote.Name)
  else
    match validateRemoteName remote.Name with
    | some err => .error err
    | none =>
      match r.data.get remote.Name with
      | some _ => .error (Error.remoteExists remote.Name)
      | none =>
        match y.Marshal remote with
        | .error cause => .error (Error.marshalFailed remote.Name cause)
        | .ok bytes =>
          match remoteYamlPath fs dir remote.Name with
          | .error err => .error err
          | .ok path =>
            match fs.Stat path with
            | .ok _ => .error (Error.pathExists path)
            | .error e =>
              if e ≠ Errno.ENOENT then .error (Error.checkFailed path e)
              else
                match fs.WriteFile path bytes with
                | .error e1 => .error (Error.writeFailed path e1)
                | .ok fs1 => .ok (⟨r.data.set remote.Name remote⟩, fs1)

/-- Adds new local cluster member records: the remotes are handled in order
and the first error ends the call. -/
def Remotes.Add (y : Yaml) (r : Remotes) (fs : FS) (dir : String) :
    List Remote → Outcome
  | [] => ⟨none, r, fs⟩
  | remote :: remotes =>
    match addRemote y dir r fs remote with
    | .error err => ⟨some err, r, fs⟩
    | .ok (r1, fs1) => Remotes.Add y r1 fs1 dir remotes

/-- The first loop of `Replace`: every member is written to its file and put
into `remoteData`; the first error ends the loop, the files written so far
stay. -/
def replaceWrite (y : Yaml) (dir : String) :
    List ClusterMember → RemoteMap → FS → Option Error × RemoteMap × FS
  | [], remoteData, fs => (none, remoteData, fs)
  | remote :: newRemotes, remoteData, fs =>
    let newRemote : Remote := ⟨⟨remote.Name, remote.Address⟩, remote.Certificate⟩
    if remote.Certificate.Certificate = none then
      (some (Error.emptyCertificate remote.Name), remoteData, fs)
    else
      match y.Marshal newRemote with
      | .error cause => (some (Error.marshalFailed remote.Name cause), remoteData, fs)
      | .ok bytes =>
        match remoteYamlPath fs dir remote.Name with
        | .error err => (some err, remoteData, fs)
        | .ok remotePath =>
          match fs.WriteFile remotePath bytes with
          | .error e => (some (Error.writeFailed remotePath e), remoteData, fs)
          | .ok fs1 => replaceWrite y dir newRemotes (remoteData.set remote.Name newRemote) fs1

/-- The second loop of `Replace`: the file of every entry with the yaml
suffix whose name is not a key of `remoteData` is removed. -/
def replaceClean (dir : String) (remoteData : RemoteMap) :
    List DirEntry → FS → Option Error × FS
  | [], fs => (none, fs)
  | entry :: allEntries, fs =>
    match CutSuffix entry.Name ".yaml" with
    | (_, false) => replaceClean dir remoteData allEntries fs
    | (name, true) =>
      match remoteData.get name with
      | some _ => replaceClean dir remoteData allEntries fs
      | none =>
        match remoteYamlPath fs dir name with
        | .error err => (some err, fs)
        | .ok remotePath =>
          match fs.Remove remotePath with
          | .error e => (some (Error.os e), fs)
          | .ok fs1 => replaceClean dir remoteData allEntries fs1

/-- Replaces the in-memory and locally stored remotes with the given list
from the database. -/
def Remotes.Replace (y : Yaml) (r : Remotes) (fs : FS) (dir : String)
    (newRemotes : List ClusterMember) : Outcome :=
  if newRemotes.length = 0 then ⟨some Error.emptyRemotes, r, fs⟩
  else
    match replaceWrite y dir newRemotes [] fs with
    | (some err, _, fs1) => ⟨some err, r, fs1⟩
    | (none, remoteData, fs1) =>
      match fs1.ReadDir dir with
      | .error e => ⟨some (Error.os e), r, fs1⟩
      | .ok allEntries =>
        match replaceClean dir remoteData allEntries fs1 with
        | (some err, fs2) => ⟨some err, r, fs2⟩
        | (none, fs2) =>
          if remoteData.length = 0 then ⟨some Error.noRemotes, r, fs2⟩
          else ⟨none, ⟨remoteData⟩, fs2⟩

/-- Returns the number of remotes. -/
def Remotes.Count (r : Remotes) : Nat :=
  r.data.length

/-- Returns a copy of the list of peers, keyed by the name of each system. -/
def Remotes.RemotesByName (r : Remotes) : RemoteMap :=
  r.data

/-- Returns a remote whose certificate fingerprint matches the provided
fingerprint: the first one `range` visits, `none` (nil) if there is none.
`CertFingerprint` is the function of that name of the lxd library, applied to
the certificate pointer of a remote. -/
def Remotes.RemoteByCertificateFingerprint (CertFingerprint : Option Certificate → String)
    (r : Remotes) (fingerprint : String) : Option Remote :=
  match r.data.find? (fun e => decide (fingerprint = CertFingerprint e.2.Certificate.Certificate)) with
  | some e => some e.2
  | none => none

/-! ## Concrete inputs -/

/-- The text a record is stored as by `recordYaml`. -/
def recordText (r : Remote) : String :=
  "name: " ++ r.Name ++ "\n"

/-- A finite stand-in for the yaml library, to run the store on concrete
inputs: a record is encoded by its name line, the texts of the listed
records decode to them, the empty document decodes to the zero remote (as
yaml.v3 leaves the target untouched), and any other text is a syntax
error. -/
def recordYaml (known : List Remote) : Yaml where
  Marshal := fun r => .ok (recordText r)
  Unmarshal := fun text =>
    if text = "" then .ok ⟨⟨"", AddrPort.zero⟩, ⟨none⟩⟩
    else
      match known.find? (fun r => decide (recordText r = text)) with
      | some r => .ok r
      | none => .error "yaml: cannot parse the document"

/-- The file system `fs1` keeps every node of `fs` as it is (and the working
directory); it may hold more nodes. -/
def FS.Extends (fs fs1 : FS) : Prop :=
  fs1.cwd = fs.cwd ∧ ∀ p n, fs.nodeAt p = some n → fs1.nodeAt p = some n

/-- The name `Add` and `Replace` give to the file of a remote, before the
prefix check of `remoteYamlPath`. -/
def targetPath (fs : FS) (dir name : String) : String :=
  fs.Abs (Join dir (name ++ ".yaml"))

/-- A remote with the zero address, for concrete inputs. -/
def remoteOf (name cert : String) : Remote :=
  ⟨⟨name, AddrPort.zero⟩, ⟨some ⟨cert⟩⟩⟩

/-- A cluster member with the zero address, for concrete inputs. -/
def memberOf (name cert : String) : ClusterMember :=
  ⟨name, AddrPort.zero, ⟨some ⟨cert⟩⟩⟩

/-- A file system whose only node is the empty directory `/trust`. -/
def emptyTrustDir : FS :=
  ⟨[(["trust"], Node.dir)], []⟩

/-- The yaml stand-in for the records named `n1` and `n2`. -/
def sampleYaml : Yaml :=
  recordYaml [remoteOf "n1" "A", remoteOf "n2" "B"]

/-- The directory `/trust` holding the file of the record `n1`. -/
def trustDirN1 : FS :=
  ⟨[(["trust", "n1.yaml"], Node.file true "name: n1\n"), (["trust"], Node.dir)], []⟩

/-- The store holding the record `n1`. -/
def storeN1 : Remotes :=
  ⟨[("n1", remoteOf "n1" "A")]⟩

/-- Whether `Load` cannot take a record from the file `fileName` of `dir`:
the file cannot be read, its content cannot be parsed, or the record it
decodes to has no certificate. -/
def recordFileFails (y : Yaml) (fs : FS) (dir fileName : String) : Bool :=
  match fs.ReadFile (Join dir fileName) with
  | .error _ => true
  | .ok content =>
    match y.Unmarshal content with
    | .error _ => true
    | .ok remote => decide (remote.Certificate.Certificate = none)

/-- The directory `/trust` holding a record file that is not valid yaml (an
unclosed flow sequence). -/
def trustDirBroken : FS :=
  ⟨[(["trust", "n1.yaml"], Node.file true "name: [n1"), (["trust"], Node.dir)], []⟩

/-- The directory `/trust` holding only a file that is not a record file and
a subdirectory. -/
def trustDirNoRecords : FS :=
  ⟨[(["trust", "README"], Node.file true "notes"), (["trust", "old.yaml"], Node.dir),
    (["trust"], Node.dir)], []⟩

/-- A fingerprint function for concrete inputs: the encoding itself. -/
def rawFingerprint : Option Certificate → String
  | some c => c.Raw
  | none => ""

/-- A store with two names that carry the same certificate. -/
def storeSharedCert : Remotes :=
  ⟨[("n1", remoteOf "n1" "A"), ("n2", remoteOf "n2" "A")]⟩

/-- The directory `/trust` holding the file of `n1` and an empty record
file. -/
def trustDirEmptyFile : FS :=
  ⟨[(["trust", "n1.yaml"], Node.file true "name: n1\n"),
    (["trust", "n2.yaml"], Node.file true ""), (["trust"], Node.dir)], []⟩

/-- The outcome of replacing the record `n1`, stored in memory and on disk,
by a member whose name is `./n1`. -/
def replaceDotSlash : Outcome :=
  storeN1.Replace sampleYaml trustDirN1 "/trust" [memberOf "./n1" "A"]

/-- The outcome of three calls from the empty store and the empty directory:
`Replace` with `n1`, `Add` of `n2`, `Replace` with `n1` and `./n2`. -/
def replaceAddReplace : Outcome :=
  let o1 := Remotes.Replace sampleYaml ⟨[]⟩ emptyTrustDir "/trust" [memberOf "n1" "A"]
  let o2 := o1.r.Add sampleYaml o1.fs "/trust" [remoteOf "n2" "B"]
  o2.r.Replace sampleYaml o2.fs "/trust" [memberOf "n1" "A", memberOf "./n2" "B"]

/-! ## The endpoint type (`rest/types/addrport.go`) -/

/-- The functions of `net/netip` the endpoint type calls: `netip.ParseAddrPort`
with the message of its error, and the method `String` of `netip.AddrPort`. -/
structure Netip where
  ParseAddrPort : String → Except String netip.AddrPort
  String : netip.AddrPort → String

/-- The functions of `encoding/json` the endpoint type calls, on strings:
`json.Marshal` of a string gives the JSON text, `json.Unmarshal` of a JSON
text into a string variable holding `target` gives its new value. -/
structure Json where
  Marshal : String → Except String String
  Unmarshal : String → String → Except String String

/-- Parses an IPv4/IPv6 address and port string into an `AddrPort`; the value
returned next to an error is always `AddrPort{}`. -/
def ParseAddrPort (n : Netip) (addrPortStr : String) : Except String AddrPort :=
  if addrPortStr = "" then .ok AddrPort.zero
  else
    match n.ParseAddrPort addrPortStr with
    | .error err => .error err
    | .ok addrPort => .ok ⟨addrPort⟩

/-- The loop of `ParseAddrPorts`: element `i` of the slice is assigned the
parsed string; the first error ends the call with a nil slice (`none`). -/
def parseAddrPortsLoop (n : Netip) :
    List String → Nat → List AddrPort → Option (List AddrPort) × Option String
  | [], _, addrPorts => (some addrPorts, none)
  | addrPortStr :: rest, i, addrPorts =>
    match ParseAddrPort n addrPortStr with
    | .error err => (none, some err)
    | .ok addrPort => parseAddrPortsLoop n rest (i + 1) (addrPorts.set i addrPort)

/-- Parses a list of address and port strings into an `AddrPorts`: the slice
(`none` for nil) and the error (`none` for nil). -/
def ParseAddrPorts (n : Netip) (addrPortStrs : List String) :
    Option (List AddrPort) × Option String :=
  parseAddrPortsLoop n addrPortStrs 0 (List.replicate addrPortStrs.length AddrPort.zero)

/-- Returns the string representation of the `AddrPort`, or an empty string if
it is empty. -/
def AddrPort.String (n : Netip) (a : AddrPort) : String :=
  if a = AddrPort.zero then "" else n.String a.inner

/-- The method `MarshalJSON` of `AddrPort`: implements `json.Marshaler`. -/
def MarshalJSON (j : Json) (n : Netip) (a : AddrPort) : Except String String :=
  j.Marshal (a.String n)

/-- The method `MarshalYAML` of `AddrPort`: implements `yaml.Marshaler`; the
result is the value handed to the yaml encoder. -/
def MarshalYAML (n : Netip) (a : AddrPort) : Except String String :=
  .ok (a.String n)

/-- The method `UnmarshalJSON` of `AddrPort`: implements `json.Unmarshaler`;
the result is the receiver after the call and the returned error. -/
def UnmarshalJSON (j : Json) (n : Netip) (a : AddrPort) (b : String) :
    AddrPort × Option String :=
  match j.Unmarshal b "" with
  | .error err => (a, some err)
  | .ok addrPortStr =>
    match ParseAddrPort n addrPortStr with
    | .error err => (AddrPort.zero, some err)
    | .ok parsed => (parsed, none)

/-- The method `UnmarshalYAML` of `AddrPort`: implements `yaml.Unmarshaler`;
`unmarshal` is the decoding callback applied to the string variable, which
holds the empty string. -/
def UnmarshalYAML (n : Netip) (a : AddrPort) (unmarshal : String → Except String String) :
    AddrPort × Option String :=
  match unmarshal "" with
  | .error err => (a, some err)
  | .ok addrPortStr =>
    match ParseAddrPort n addrPortStr with
    | .error err => (AddrPort.zero, some err)
    | .ok parsed => (parsed, none)

/-- Returns a remote matching the given host address (`none` for nil if none
is found): the first one `range` visits. -/
def Remotes.RemoteByAddress (n : Netip) (r : Remotes) (addrPort : AddrPort) : Option Remote :=
  match r.data.find? (fun e => decide (e.2.Address.String n = addrPort.String n)) with
  | some e => some e.2
  | none => none

/-- A stand-in for `net/netip` on concrete inputs: the address `10.0.0.i` with
port 8443 for `i` from 1 to 3. -/
def sampleNetip : Netip where
  ParseAddrPort := fun s =>
    if s = "10.0.0.1:8443" then .ok ⟨⟨0, 0xffff0a000001, netip.Zone.z4⟩, 8443⟩
    else if s = "10.0.0.2:8443" then .ok ⟨⟨0, 0xffff0a000002, netip.Zone.z4⟩, 8443⟩
    else if s = "10.0.0.3:8443" then .ok ⟨⟨0, 0xffff0a000003, netip.Zone.z4⟩, 8443⟩
    else .error "not an ip:port"
  String := fun a =>
    if a = ⟨⟨0, 0xffff0a000001, netip.Zone.z4⟩, 8443⟩ then "10.0.0.1:8443"
    else if a = ⟨⟨0, 0xffff0a000002, netip.Zone.z4⟩, 8443⟩ then "10.0.0.2:8443"
    else if a = ⟨⟨0, 0xffff0a000003, netip.Zone.z4⟩, 8443⟩ then "10.0.0.3:8443"
    else "invalid AddrPort"

/-- A stand-in for `encoding/json` on strings without characters to escape:
the text is put between double quotes, and taken out of them again; `null`
leaves the target as it is. -/
def sampleJson : Json where
  Marshal := fun s => .ok ⟨'"' :: s.data ++ ['"']⟩
  Unmarshal := fun b target =>
    if b = "null" then .ok target
    else
      match b.data with
      | '"' :: rest =>
        if rest.getLast? = some '"' then .ok ⟨rest.dropLast⟩
        else .error "unexpected end of JSON input"
      | _ => .error "json: cannot unmarshal into Go value of type string"

/-- The endpoint `10.0.0.i:8443` of `sampleNetip`. -/
def sampleAddr (i : Nat) : AddrPort :=
  ⟨⟨⟨0, 0xffff0a000000 + i, netip.Zone.z4⟩, 8443⟩⟩

/-- A remote with an address, for concrete inputs. -/
def remoteAt (name : String) (i : Nat) (cert : String) : Remote :=
  ⟨⟨name, sampleAddr i⟩, ⟨some ⟨cert⟩⟩⟩

/-- A store with two remotes at different addresses. -/
def storeTwo : Remotes :=
  ⟨[("n1", remoteAt "n1" 1 "A"), ("n2", remoteAt "n2" 2 "B")]⟩

/-! ## Addresses and the cluster clients -/

/-- A Go `map[string]types.AddrPort`. -/
abbrev AddrMap := List (String × AddrPort)

/-- The map assignment `addrs[k] = v`. -/
def AddrMap.set (m : AddrMap) (k : String) (v : AddrPort) : AddrMap :=
  match m with
  | [] => [(k, v)]
  | (k1, v1) :: rest => if k1 = k then (k, v) :: rest else (k1, v1) :: AddrMap.set rest k v

/-- The loop of `Addresses` over the remotes of the store. -/
def addressesLoop : List (String × Remote) → AddrMap → AddrMap
  | [], addrs => addrs
  | (_, remote) :: rest, addrs => addressesLoop rest (addrs.set remote.Name remote.Address)

/-- Returns just the host:port addresses of the remotes. -/
def Remotes.Addresses (r : Remotes) : AddrMap :=
  addressesLoop r.data []

/-- The type `api.URL` of the lxd library, reduced to the scheme and the host
that `api.NewURL().Scheme(s).Host(h)` sets. -/
structure URL where
  Scheme : String
  Host : String
  deriving DecidableEq, Repr

/-- Returns the parsed URL of the remote. -/
def Remote.URL (n : Netip) (r : Remote) : URL :=
  ⟨"https", r.Address.String n⟩

/-- How a call of `Cluster` ends: a run-time panic, the return of a nil slice
with an error, or the return of the clients with a nil error. -/
inductive ClusterResult (Client : Type) where
  | panic (msg : String)
  | err (e : String)
  | ok (cluster : List Client)
  deriving DecidableEq, Repr

/-- The capacity `r.Count()-1` that `Cluster` passes to `make`. -/
def Remotes.clusterCap (r : Remotes) : Int :=
  (r.Count : Int) - 1

/-- The loop of `Cluster` over the addresses in the order `range` visits
them: a client is built for each and appended; the first error ends the call.
`New` is the constructor `internalClient.New`, which is not among the
sources. -/
def clusterLoop {Client CertInfo : Type} (n : Netip)
    (New : URL → CertInfo → Option Certificate → Bool → Except String Client)
    (isNotification : Bool) (serverCert : CertInfo) (publicKey : Option Certificate) :
    List (String × AddrPort) → List Client → ClusterResult Client
  | [], cluster => .ok cluster
  | (_, addr) :: rest, cluster =>
    match New ⟨"https", addr.String n⟩ serverCert publicKey isNotification with
    | .error err => .err err
    | .ok c => clusterLoop n New isNotification serverCert publicKey rest (cluster ++ [c])

/-- Returns a set of clients for every remote.  `make` with length 0 panics
when the capacity is negative; `visit` is the map `r.Addresses()` in the
order in which `range` visits it. -/
def Remotes.Cluster {Client CertInfo : Type} (n : Netip)
    (New : URL → CertInfo → Option Certificate → Bool → Except String Client)
    (r : Remotes) (visit : List (String × AddrPort))
    (isNotification : Bool) (serverCert : CertInfo) (publicKey : Option Certificate) :
    ClusterResult Client :=
  if r.clusterCap < 0 then .panic "runtime error: makeslice: cap out of range"
  else clusterLoop n New isNotification serverCert publicKey visit []

/-- Every key of the map is the name of its record, and no key occurs
twice. -/
def RemoteMap.KeyNamed (m : RemoteMap) : Prop :=
  m.keys.Nodup ∧ ∀ e ∈ m, e.2.Name = e.1

/-- The stores reachable from the empty store by calls of `Load`, `Add` and
`Replace` with any arguments and any state of the disk, whether the calls
return an error or not. -/
inductive Reachable (y : Yaml) : Remotes → Prop where
  | empty : Reachable y ⟨[]⟩
  | Load (r : Remotes) (fs : FS) (dir : String) :
      Reachable y r → Reachable y (r.Load y fs dir).r
  | Add (r : Remotes) (fs : FS) (dir : String) (remotes : List Remote) :
      Reachable y r → Reachable y (r.Add y fs dir remotes).r
  | Replace (r : Remotes) (fs : FS) (dir : String) (newRemotes : List ClusterMember) :
      Reachable y r → Reachable y (r.Replace y fs dir newRemotes).r

/-- A client constructor for concrete inputs: the client is the URL it is
built for and the notification flag; the host `10.0.0.3:8443` is refused. -/
def sampleNew (url : URL) (_serverCert : String) (_publicKey : Option Certificate)
    (isNotification : Bool) : Except String (URL × Bool) :=
  if url.Host = "10.0.0.3:8443" then .error "connection refused"
  else .ok (url, isNotification)

/-- A file system with the empty directories `/trust` and `/trust2`. -/
def siblingDirs : FS :=
  ⟨[(["trust"], Node.dir), (["trust2"], Node.dir)], []⟩

/-! ## The statement registry (`cluster/stmt.go`) -/

/-- A Go `map[int]string`; the codes are Go `int`s, which the count of
statements never overflows. -/
abbrev StmtMap := List (Int × String)

/-- The map lookup `m[code]`, as the loop of `StmtString` performs it. -/
def StmtMap.get (m : StmtMap) (code : Int) : Option String :=
  match m with
  | [] => none
  | (c, sql) :: rest => if c = code then some sql else StmtMap.get rest code

/-- The map assignment `m[code] = sql`. -/
def StmtMap.set (m : StmtMap) (code : Int) (sql : String) : StmtMap :=
  match m with
  | [] => [(code, sql)]
  | (c, s) :: rest => if c = code then (code, sql) :: rest else (c, s) :: StmtMap.set rest code sql

/-- The error of `StmtString`, with the code of its message. -/
inductive StmtError where
  | notRegistered (code : Int)
  deriving DecidableEq, Repr

/-- Registers a SQL statement: the package variable `stmts` (`none` for a nil
map) is passed in, the registration code and the new value of `stmts` are
returned. -/
def RegisterStmt (stmts : Option StmtMap) (sql : String) : Int × Option StmtMap :=
  let stmts1 : StmtMap :=
    match stmts with
    | none => []
    | some m => m
  let code : Int := (stmts1.length : Int) + 1
  (code, some (stmts1.set code sql))

/-- Returns the in-memory query string with the given code. -/
def StmtString (stmts : Option StmtMap) (code : Int) : Except StmtError String :=
  match stmts with
  | none => .error (StmtError.notRegistered code)
  | some m =>
    match m.get code with
    | some stmt => .ok stmt
    | none => .error (StmtError.notRegistered code)

/-- A sequence of calls of `RegisterStmt`, one for each text: the codes
returned, in order, and the registry after the calls. -/
def registerAll : List String → Option StmtMap → List Int × Option StmtMap
  | [], stmts => ([], stmts)
  | sql :: rest, stmts =>
    ((RegisterStmt stmts sql).1 :: (registerAll rest (RegisterStmt stmts sql).2).1,
      (registerAll rest (RegisterStmt stmts sql).2).2)

/-! ## Lemmas on maps -/

theorem RemoteMap.get_set_self (m : RemoteMap) (k : String) (v : Remote) :
    (m.set k v).get k = some v := by
  induction m with
  | nil => simp [RemoteMap.set, RemoteMap.get]
  | cons e rest ih =>
    obtain ⟨k1, v1⟩ := e
    by_cases h : k1 = k
    · simp [RemoteMap.set, RemoteMap.get, h]
    · simp [RemoteMap.set, RemoteMap.get, h, ih]

theorem RemoteMap.get_set_ne (m : RemoteMap) (k k2 : String) (v : Remote) (hne : k2 ≠ k) :
    (m.set k v).get k2 = m.get k2 := by
  induction m with
  | nil =>
    have h : ¬ k = k2 := fun h => hne h.symm
    simp [RemoteMap.set, RemoteMap.get, h]
  | cons e rest ih =>
    obtain ⟨k1, v1⟩ := e
    by_cases h : k1 = k
    · subst h
      have h2 : ¬ k1 = k2 := fun h => hne h.symm
      simp [RemoteMap.set, RemoteMap.get, h2]
    · by_cases h3 : k1 = k2
      · subst h3
        simp [RemoteMap.set, RemoteMap.get, h]
      · simp [RemoteMap.set, RemoteMap.get, h, h3, ih]

theorem RemoteMap.set_of_get_none (m : RemoteMap) (k : String) (v : Remote)
    (hnone : m.get k = none) : m.set k v = m ++ [(k, v)] := by
  induction m with
  | nil => simp [RemoteMap.set]
  | cons e rest ih =>
    obtain ⟨k1, v1⟩ := e
    by_cases h : k1 = k
    · simp [RemoteMap.get, h] at hnone
    · simp only [RemoteMap.get, h, if_false] at hnone
      simp [RemoteMap.set, h, ih hnone]

theorem RemoteMap.length_set_of_get_none (m : RemoteMap) (k : String) (v : Remote)
    (hnone : m.get k = none) : (m.set k v).length = m.length + 1 := by
  rw [RemoteMap.set_of_get_none m k v hnone]; simp

theorem RemoteMap.get_eq_none_iff (m : RemoteMap) (k : String) :
    m.get k = none ↔ k ∉ m.keys := by
  induction m with
  | nil => simp [RemoteMap.get, RemoteMap.keys]
  | cons e rest ih =>
    obtain ⟨k1, v1⟩ := e
    by_cases h : k1 = k
    · simp [RemoteMap.get, RemoteMap.keys, h]
    · have h2 : ¬ k = k1 := fun h3 => h h3.symm
      simp only [RemoteMap.get, h, if_false, ih]
      simp [RemoteMap.keys, h2]

/-! ## Lemmas on `Add` -/

theorem addRemote_get_none {y : Yaml} {dir : String} {r r1 : Remotes} {fs fs1 : FS}
    {remote : Remote} (h : addRemote y dir r fs remote = .ok (r1, fs1)) :
    r.data.get remote.Name = none := by
  unfold addRemote at h
  split at h
  · cases h
  · split at h
    · cases h
    · split at h
      · cases h
      · assumption

theorem addRemote_data {y : Yaml} {dir : String} {r r1 : Remotes} {fs fs1 : FS}
    {remote : Remote} (h : addRemote y dir r fs remote = .ok (r1, fs1)) :
    r1.data = r.data.set remote.Name remote := by
  unfold addRemote at h
  repeat' split at h
  all_goals (cases h; try rfl)

theorem Add_nil (y : Yaml) (r : Remotes) (fs : FS) (dir : String) :
    r.Add y fs dir [] = ⟨none, r, fs⟩ := rfl

theorem Add_cons_error {y : Yaml} {r : Remotes} {fs : FS} {dir : String} {remote : Remote}
    {e : Error} (remotes : List Remote) (h : addRemote y dir r fs remote = .error e) :
    r.Add y fs dir (remote :: remotes) = ⟨some e, r, fs⟩ := by
  simp [Remotes.Add, h]

theorem Add_cons_ok {y : Yaml} {r r1 : Remotes} {fs fs1 : FS} {dir : String} {remote : Remote}
    (remotes : List Remote) (h : addRemote y dir r fs remote = .ok (r1, fs1)) :
    r.Add y fs dir (remote :: remotes) = r1.Add y fs1 dir remotes := by
  simp [Remotes.Add, h]

/-- A call of `Add` on `pre ++ post` is the call on `pre` when that fails, and
otherwise the call on `post` from the state the call on `pre` leaves. -/
theorem Add_append (y : Yaml) (dir : String) (pre post : List Remote) (r : Remotes) (fs : FS) :
    r.Add y fs dir (pre ++ post) =
      if (r.Add y fs dir pre).err = none
      then (r.Add y fs dir pre).r.Add y (r.Add y fs dir pre).fs dir post
      else r.Add y fs dir pre := by
  induction pre generalizing r fs with
  | nil => simp [Add_nil]
  | cons x xs ih =>
    cases hx : addRemote y dir r fs x with
    | error e => simp [Add_cons_error _ hx]
    | ok p =>
      obtain ⟨r1, fs1⟩ := p
      simp only [List.cons_append, Add_cons_ok _ hx]
      exact ih r1 fs1

/-- After a call of `Add` without error every old entry is kept, every remote
passed is stored under its name, none of the names was a key before, and the
map has grown by the number of remotes. -/
theorem Add_ok_data (y : Yaml) (dir : String) (remotes : List Remote) (r : Remotes) (fs : FS)
    (hok : (r.Add y fs dir remotes).err = none) :
    (∀ k v, r.data.get k = some v → (r.Add y fs dir remotes).r.data.get k = some v) ∧
    (∀ remote ∈ remotes, (r.Add y fs dir remotes).r.data.get remote.Name = some remote) ∧
    (∀ remote ∈ remotes, r.data.get remote.Name = none) ∧
    (r.Add y fs dir remotes).r.data.length = r.data.length + remotes.length := by
  induction remotes generalizing r fs with
  | nil => simp [Add_nil]
  | cons x xs ih =>
    cases hx : addRemote y dir r fs x with
    | error e => simp [Add_cons_error _ hx] at hok
    | ok p =>
      obtain ⟨r1, fs1⟩ := p
      rw [Add_cons_ok _ hx] at hok ⊢
      obtain ⟨h1, h2, h3, h4⟩ := ih r1 fs1 hok
      have hnone := addRemote_get_none hx
      have hdata := addRemote_data hx
      have hkeep : ∀ k v, r.data.get k = some v → r1.data.get k = some v := by
        intro k v hk
        have hne : k ≠ x.Name := by
          intro heq; rw [heq, hnone] at hk; cases hk
        rw [hdata, RemoteMap.get_set_ne _ _ _ _ hne]; exact hk
      have hx1 : r1.data.get x.Name = some x := by
        rw [hdata]; exact RemoteMap.get_set_self _ _ _
      refine ⟨fun k v hk => h1 k v (hkeep k v hk), ?_, ?_, ?_⟩
      · intro z hz
        rcases List.mem_cons.1 hz with rfl | hz
        · exact h1 _ _ hx1
        · exact h2 z hz
      · intro z hz
        rcases List.mem_cons.1 hz with rfl | hz
        · exact hnone
        · have hz1 := h3 z hz
          cases hg : r.data.get z.Name with
          | none => rfl
          | some v => rw [hkeep _ _ hg] at hz1; cases hz1
      · rw [h4, hdata, RemoteMap.length_set_of_get_none _ _ _ hnone]
        simp only [List.length_cons]; omega

/-! ## Lemmas on the file system -/

theorem lookupNode_dropNode_ne (p q : Path) (nodes : List (Path × Node)) (hne : q ≠ p) :
    lookupNode q (dropNode p nodes) = lookupNode q nodes := by
  induction nodes with
  | nil => rfl
  | cons e rest ih =>
    obtain ⟨q1, n1⟩ := e
    by_cases h : q1 = p
    · subst h
      have h2 : ¬ q1 = q := fun h3 => hne h3.symm
      simp [dropNode, lookupNode, h2, ih]
    · by_cases h3 : q1 = q
      · subst h3
        simp [dropNode, lookupNode, h]
      · simp [dropNode, lookupNode, h, h3, ih]

theorem FS.nodeAt_set_ne (fs : FS) (p q : Path) (n : Node) (hne : q ≠ p) :
    (fs.set p n).nodeAt q = fs.nodeAt q := by
  have h2 : ¬ p = q := fun h3 => hne h3.symm
  simp [FS.nodeAt, FS.set, lookupNode, h2, lookupNode_dropNode_ne p q fs.nodes hne]

theorem FS.nodeAt_set_self (fs : FS) (p : Path) (n : Node) (hp : p ≠ []) :
    (fs.set p n).nodeAt p = some n := by
  simp [FS.nodeAt, FS.set, lookupNode, hp]

theorem FS.Extends.refl (fs : FS) : fs.Extends fs :=
  ⟨rfl, fun _ _ h => h⟩

theorem FS.Extends.trans {fs fs1 fs2 : FS} (h1 : fs.Extends fs1) (h2 : fs1.Extends fs2) :
    fs.Extends fs2 :=
  ⟨h2.1.trans h1.1, fun p n h => h2.2 p n (h1.2 p n h)⟩

theorem FS.Extends.walk {fs fs1 : FS} (hext : fs.Extends fs1) (cs : List String) :
    ∀ (cur p : Path), fs.walk cur cs = .ok p → fs1.walk cur cs = .ok p := by
  induction cs with
  | nil => intro cur p h; simpa [FS.walk] using h
  | cons c cs ih =>
    intro cur p h
    unfold FS.walk at h ⊢
    cases hn : fs.nodeAt cur with
    | none => simp [hn] at h
    | some n =>
      cases n with
      | file b t => simp [hn] at h
      | dir =>
        rw [hext.2 cur _ hn]
        simp only [hn] at h
        by_cases h1 : c = "" ∨ c = "."
        · simp only [h1, if_true] at h ⊢
          exact ih _ _ h
        · simp only [h1, if_false] at h ⊢
          by_cases h2 : c = ".."
          · simp only [h2, if_true] at h ⊢
            exact ih _ _ h
          · simp only [h2, if_false] at h ⊢
            exact ih _ _ h

theorem FS.Extends.resolve {fs fs1 : FS} (hext : fs.Extends fs1) (name : String) (p : Path)
    (h : fs.resolve name = .ok p) : fs1.resolve name = .ok p := by
  unfold FS.resolve at h ⊢
  by_cases h0 : name.data = []
  · simp [h0] at h
  · simp only [h0, if_false] at h ⊢
    rw [hext.1]
    exact hext.walk _ _ _ h

theorem FS.Stat_ok_iff (fs : FS) (name : String) (n : Node) :
    fs.Stat name = .ok n ↔ ∃ p, fs.resolve name = .ok p ∧ fs.nodeAt p = some n := by
  unfold FS.Stat
  cases hr : fs.resolve name with
  | error e => simp
  | ok p =>
    cases hn : fs.nodeAt p with
    | none => simp [hn]
    | some m => simp [hn]

theorem FS.Extends.Stat {fs fs1 : FS} (hext : fs.Extends fs1) (name : String) (n : Node)
    (h : fs.Stat name = .ok n) : fs1.Stat name = .ok n := by
  rw [FS.Stat_ok_iff] at h ⊢
  obtain ⟨p, hp, hn⟩ := h
  exact ⟨p, hext.resolve name p hp, hext.2 p n hn⟩

theorem FS.Extends.Abs {fs fs1 : FS} (hext : fs.Extends fs1) (path : String) :
    fs1.Abs path = fs.Abs path := by
  simp [FS.Abs, FS.Getwd, hext.1]

theorem FS.Extends.targetPath {fs fs1 : FS} (hext : fs.Extends fs1) (dir name : String) :
    targetPath fs1 dir name = targetPath fs dir name := by
  simp [Trust.targetPath, hext.Abs]

/-- A write to a name at which `Stat` finds nothing keeps every node and
leaves a readable file with the content at that name. -/
theorem FS.WriteFile_new {fs fs1 : FS} {name data : String}
    (hstat : fs.Stat name = .error Errno.ENOENT) (hw : fs.WriteFile name data = .ok fs1) :
    fs.Extends fs1 ∧ fs1.Stat name = .ok (Node.file true data) := by
  unfold FS.WriteFile at hw
  unfold FS.Stat at hstat
  cases hr : fs.resolve name with
  | error e => simp [hr] at hw
  | ok p =>
    simp only [hr] at hw hstat
    by_cases hp : p = []
    · simp [hp] at hw
    · simp only [hp, if_false] at hw
      cases hn : fs.nodeAt p with
      | some n => simp [hn] at hstat
      | none =>
        have hfs1 : fs1 = fs.set p (Node.file true data) := by
          cases hd : fs.nodeAt p.dropLast with
          | none => simp [hd] at hw
          | some d =>
            cases d with
            | file b t => simp [hd] at hw
            | dir =>
              simp only [hd, hn] at hw
              cases hw; rfl
        have hext : fs.Extends fs1 := by
          refine ⟨by rw [hfs1]; rfl, ?_⟩
          intro q n hq
          have hne : q ≠ p := by
            intro heq; rw [heq, hn] at hq; cases hq
          rw [hfs1, FS.nodeAt_set_ne _ _ _ _ hne]; exact hq
        refine ⟨hext, ?_⟩
        rw [FS.Stat_ok_iff]
        exact ⟨p, hext.resolve name p hr, by rw [hfs1]; exact FS.nodeAt_set_self _ _ _ hp⟩

theorem remoteYamlPath_ok {fs : FS} {dir name path : String}
    (h : remoteYamlPath fs dir name = .ok path) : path = targetPath fs dir name := by
  unfold remoteYamlPath at h
  simp only [] at h
  split at h
  · cases h
  · cases h; rfl

/-- A remote added by the loop body of `Add`: every node is kept and the file
of the remote holds its serialisation. -/
theorem addRemote_fs {y : Yaml} {dir : String} {r r1 : Remotes} {fs fs1 : FS}
    {remote : Remote} (h : addRemote y dir r fs remote = .ok (r1, fs1)) :
    fs.Extends fs1 ∧ ∃ bytes, y.Marshal remote = .ok bytes ∧
      fs1.Stat (targetPath fs dir remote.Name) = .ok (Node.file true bytes) := by
  unfold addRemote at h
  split at h
  · cases h
  · split at h
    · cases h
    · split at h
      · cases h
      · split at h
        · cases h
        · rename_i bytes hm
          split at h
          · cases h
          · rename_i path hpath
            have hp := remoteYamlPath_ok hpath
            subst hp
            split at h
            · cases h
            · rename_i e hstat
              split at h
              · cases h
              · rename_i he
                have he1 : e = Errno.ENOENT := by
                  by_contra hc; exact he hc
                subst he1
                split at h
                · cases h
                · rename_i fs2 hw
                  cases h
                  obtain ⟨h1, h2⟩ := FS.WriteFile_new hstat hw
                  exact ⟨h1, bytes, hm, h2⟩

/-- A call of `Add` keeps every node of the file system as it is. -/
theorem Add_extends (y : Yaml) (dir : String) (remotes : List Remote) (r : Remotes) (fs : FS) :
    fs.Extends (r.Add y fs dir remotes).fs := by
  induction remotes generalizing r fs with
  | nil => exact FS.Extends.refl fs
  | cons x xs ih =>
    cases hx : addRemote y dir r fs x with
    | error e => rw [Add_cons_error _ hx]; exact FS.Extends.refl fs
    | ok p =>
      obtain ⟨r1, fs1⟩ := p
      rw [Add_cons_ok _ hx]
      exact (addRemote_fs hx).1.trans (ih r1 fs1)

/-- After a call of `Add` without error the file of every remote passed holds
its serialisation. -/
theorem Add_ok_files (y : Yaml) (dir : String) (remotes : List Remote) (r : Remotes) (fs : FS)
    (hok : (r.Add y fs dir remotes).err = none) :
    ∀ remote ∈ remotes, ∃ bytes, y.Marshal remote = .ok bytes ∧
      (r.Add y fs dir remotes).fs.Stat (targetPath fs dir remote.Name) =
        .ok (Node.file true bytes) := by
  induction remotes generalizing r fs with
  | nil => intro z hz; cases hz
  | cons x xs ih =>
    cases hx : addRemote y dir r fs x with
    | error e => simp [Add_cons_error _ hx] at hok
    | ok p =>
      obtain ⟨r1, fs1⟩ := p
      rw [Add_cons_ok _ hx] at hok ⊢
      obtain ⟨hext, bytes, hm, hstat⟩ := addRemote_fs hx
      intro z hz
      rcases List.mem_cons.1 hz with rfl | hz
      · exact ⟨bytes, hm, (Add_extends y dir xs r1 fs1).Stat _ _ hstat⟩
      · obtain ⟨b, hb1, hb2⟩ := ih r1 fs1 hok z hz
        rw [hext.targetPath] at hb2
        exact ⟨b, hb1, hb2⟩

/-! ## Name checks -/

theorem validateRemoteName_unsafe (name : String)
    (h : Contains name ".." = true ∨ Contains name "/" = true ∨ Contains name "\\" = true) :
    ∃ e, validateRemoteName name = some e := by
  unfold validateRemoteName disallowedFilenameSubcontents
  simp only [List.find?]
  by_cases h1 : Contains name ".." = true
  · simp [h1]
  · by_cases h2 : Contains name "/" = true
    · simp [h1, h2]
    · have h3 : Contains name "\\" = true := by
        rcases h with h | h | h
        · exact absurd h h1
        · exact absurd h h2
        · exact h
      simp [h1, h2, h3]

theorem addRemote_unsafe (y : Yaml) (dir : String) (r : Remotes) (fs : FS) (remote : Remote)
    (h : Contains remote.Name ".." = true ∨ Contains remote.Name "/" = true ∨
      Contains remote.Name "\\" = true) :
    ∃ e, addRemote y dir r fs remote = .error e := by
  obtain ⟨e, he⟩ := validateRemoteName_unsafe remote.Name h
  unfold addRemote
  split
  · exact ⟨_, rfl⟩
  · simp [he]

/-- A remote whose name is a key of the map, or whose file exists, is refused
by the loop body of `Add`. -/
theorem addRemote_collision (y : Yaml) (dir : String) (r : Remotes) (fs : FS) (remote : Remote)
    (h : r.data.get remote.Name ≠ none ∨
      ∃ n, fs.Stat (targetPath fs dir remote.Name) = .ok n) :
    ∃ e, addRemote y dir r fs remote = .error e := by
  cases hx : addRemote y dir r fs remote with
  | error e => exact ⟨e, rfl⟩
  | ok p =>
    exfalso
    obtain ⟨r1, fs1⟩ := p
    rcases h with h | ⟨n, hn⟩
    · exact h (addRemote_get_none hx)
    · unfold addRemote at hx
      repeat' split at hx
      all_goals try cases hx
      rename_i path hpath _ e hstat _ _ _
      rw [remoteYamlPath_ok hpath, hn] at hstat
      cases hstat

theorem Add_exclusive_aux (y : Yaml) (dir name : String) (remotes : List Remote) :
    ∀ (r : Remotes) (fs : FS),
      (r.data.get name ≠ none ∨ ∃ n, fs.Stat (targetPath fs dir name) = .ok n) →
      (r.Add y fs dir remotes).r.data.get name = r.data.get name ∧
      ∀ remote ∈ remotes, remote.Name = name → (r.Add y fs dir remotes).err ≠ none := by
  induction remotes with
  | nil => intro r fs _; exact ⟨rfl, fun z hz => by cases hz⟩
  | cons x xs ih =>
    intro r fs h
    cases hx : addRemote y dir r fs x with
    | error e => rw [Add_cons_error _ hx]; exact ⟨rfl, fun _ _ _ hc => by cases hc⟩
    | ok p =>
      obtain ⟨r1, fs1⟩ := p
      rw [Add_cons_ok _ hx]
      have hne : x.Name ≠ name := by
        intro heq
        obtain ⟨e, he⟩ := addRemote_collision y dir r fs x (by rw [heq]; exact h)
        rw [he] at hx; cases hx
      have hget : r1.data.get name = r.data.get name := by
        rw [addRemote_data hx, RemoteMap.get_set_ne _ _ _ _ (Ne.symm hne)]
      have hext := (addRemote_fs hx).1
      have h1 : r1.data.get name ≠ none ∨ ∃ n, fs1.Stat (targetPath fs1 dir name) = .ok n := by
        rcases h with h | ⟨n, hn⟩
        · exact Or.inl (by rw [hget]; exact h)
        · exact Or.inr ⟨n, by rw [hext.targetPath]; exact hext.Stat _ _ hn⟩
      obtain ⟨ih1, ih2⟩ := ih r1 fs1 h1
      refine ⟨by rw [ih1, hget], ?_⟩
      intro z hz hzn
      rcases List.mem_cons.1 hz with rfl | hz
      · exact absurd hzn hne
      · exact ih2 z hz hzn

theorem Add_ok_nodup (y : Yaml) (dir : String) (remotes : List Remote) (r : Remotes) (fs : FS)
    (hok : (r.Add y fs dir remotes).err = none) :
    (remotes.map (fun remote => remote.Name)).Nodup := by
  induction remotes generalizing r fs with
  | nil => simp
  | cons x xs ih =>
    cases hx : addRemote y dir r fs x with
    | error e => simp [Add_cons_error _ hx] at hok
    | ok p =>
      obtain ⟨r1, fs1⟩ := p
      rw [Add_cons_ok _ hx] at hok
      rw [List.map_cons, List.nodup_cons]
      refine ⟨?_, ih r1 fs1 hok⟩
      intro hmem
      obtain ⟨z, hz, hzn⟩ := List.mem_map.1 hmem
      have h3 := (Add_ok_data y dir xs r1 fs1 hok).2.2.1 z hz
      rw [hzn, addRemote_data hx, RemoteMap.get_set_self] at h3
      cases h3

/-- A failing call of `Add` fails at one of its remotes: the remotes before
it are added without error and the loop body refuses it. -/
theorem Add_error_split (y : Yaml) (dir : String) (remotes : List Remote) (r : Remotes) (fs : FS)
    (e : Error) (herr : (r.Add y fs dir remotes).err = some e) :
    ∃ pre x post, remotes = pre ++ x :: post ∧ (r.Add y fs dir pre).err = none ∧
      addRemote y dir (r.Add y fs dir pre).r (r.Add y fs dir pre).fs x = .error e := by
  induction remotes generalizing r fs with
  | nil => simp [Add_nil] at herr
  | cons x xs ih =>
    cases hx : addRemote y dir r fs x with
    | error e1 =>
      rw [Add_cons_error _ hx] at herr
      simp only [Option.some.injEq] at herr
      subst herr
      exact ⟨[], x, xs, rfl, rfl, hx⟩
    | ok p =>
      obtain ⟨r1, fs1⟩ := p
      rw [Add_cons_ok _ hx] at herr
      obtain ⟨pre, z, post, h1, h2, h3⟩ := ih r1 fs1 herr
      refine ⟨x :: pre, z, post, by rw [h1]; rfl, ?_, ?_⟩
      · rw [Add_cons_ok _ hx]; exact h2
      · rw [Add_cons_ok _ hx]; exact h3

/-! ## Claims on `Add` and on the empty `Replace` -/

/-- C2, Add exclusivity: when a remote passed to `Add` has a name that is a
key of the in-memory map, or its file already exists, the call returns an
error, the map entry of that name is what it was, and the existing file of
that name is what it was. -/
theorem Add_exclusive (y : Yaml) (r : Remotes) (fs : FS) (dir : String)
    (remotes : List Remote) (remote : Remote) (hmem : remote ∈ remotes)
    (h : r.data.get remote.Name ≠ none ∨
      ∃ n, fs.Stat (targetPath fs dir remote.Name) = .ok n) :
    (r.Add y fs dir remotes).err ≠ none ∧
    (r.Add y fs dir remotes).r.data.get remote.Name = r.data.get remote.Name ∧
    ∀ n, fs.Stat (targetPath fs dir remote.Name) = .ok n →
      (r.Add y fs dir remotes).fs.Stat (targetPath fs dir remote.Name) = .ok n := by
  obtain ⟨h1, h2⟩ := Add_exclusive_aux y dir remote.Name remotes r fs h
  exact ⟨h2 remote hmem rfl, h1, fun n hn => (Add_extends y dir remotes r fs).Stat _ _ hn⟩

/-- Witness of C2: the store and the directory hold `n1`; adding `n2` and a
different `n1` fails and leaves the entry and the file of `n1` alone. -/
theorem Add_exclusive_witness :
    (storeN1.data.get (remoteOf "n1" "B").Name ≠ none ∨
      ∃ n, trustDirN1.Stat (targetPath trustDirN1 "/trust" (remoteOf "n1" "B").Name) = .ok n) ∧
    (storeN1.Add sampleYaml trustDirN1 "/trust" [remoteOf "n2" "B", remoteOf "n1" "B"]).err ≠ none ∧
    (storeN1.Add sampleYaml trustDirN1 "/trust"
      [remoteOf "n2" "B", remoteOf "n1" "B"]).r.data.get "n1" = some (remoteOf "n1" "A") ∧
    (storeN1.Add sampleYaml trustDirN1 "/trust"
      [remoteOf "n2" "B", remoteOf "n1" "B"]).fs.Stat "/trust/n1.yaml" =
        .ok (Node.file true "name: n1\n") := by
  have hyp : storeN1.data.get (remoteOf "n1" "B").Name ≠ none ∨
      ∃ n, trustDirN1.Stat (targetPath trustDirN1 "/trust" (remoteOf "n1" "B").Name) = .ok n :=
    Or.inl (by decide)
  have w := Add_exclusive sampleYaml storeN1 trustDirN1 "/trust"
    [remoteOf "n2" "B", remoteOf "n1" "B"] (remoteOf "n1" "B") (by decide) hyp
  refine ⟨hyp, w.1, ?_, ?_⟩
  · exact w.2.1.trans (by decide)
  · exact w.2.2 _ (by decide)

/-- C4 as stated fails: `Add` of a valid remote followed by one with an unsafe
name returns the name error, yet the file of the first remote has been
written. -/
theorem Add_unsafe_name_counterexample :
    Contains (remoteOf "../n2" "B").Name ".." = true ∧
    (storeN1.Add (recordYaml []) trustDirN1 "/trust"
      [remoteOf "n3" "C", remoteOf "../n2" "B"]).err = some (Error.invalidName "../n2" "..") ∧
    trustDirN1.Stat "/trust/n3.yaml" = .error Errno.ENOENT ∧
    (storeN1.Add (recordYaml []) trustDirN1 "/trust"
      [remoteOf "n3" "C", remoteOf "../n2" "B"]).fs.Stat "/trust/n3.yaml" =
        .ok (Node.file true "name: n3\n") := by
  decide

/-- C4 amended: when a remote passed to `Add` has a name containing `..`, `/`
or a backslash, the call returns an error and writes nothing for that remote
or any later one: the store and the file system are those the `Add` of the
remotes before it leaves, and are unchanged when it is the first remote. -/
theorem Add_unsafe_name (y : Yaml) (r : Remotes) (fs : FS) (dir : String)
    (pre : List Remote) (bad : Remote) (post : List Remote)
    (hbad : Contains bad.Name ".." = true ∨ Contains bad.Name "/" = true ∨
      Contains bad.Name "\\" = true) :
    (r.Add y fs dir (pre ++ bad :: post)).err ≠ none ∧
    (r.Add y fs dir (pre ++ bad :: post)).r = (r.Add y fs dir pre).r ∧
    (r.Add y fs dir (pre ++ bad :: post)).fs = (r.Add y fs dir pre).fs ∧
    (pre = [] → (r.Add y fs dir (pre ++ bad :: post)).r = r ∧
      (r.Add y fs dir (pre ++ bad :: post)).fs = fs) := by
  have key : (r.Add y fs dir (pre ++ bad :: post)).err ≠ none ∧
      (r.Add y fs dir (pre ++ bad :: post)).r = (r.Add y fs dir pre).r ∧
      (r.Add y fs dir (pre ++ bad :: post)).fs = (r.Add y fs dir pre).fs := by
    rw [Add_append]
    by_cases hpre : (r.Add y fs dir pre).err = none
    · obtain ⟨e, he⟩ := addRemote_unsafe y dir (r.Add y fs dir pre).r (r.Add y fs dir pre).fs bad hbad
      simp [hpre, Add_cons_error _ he]
    · simp [hpre]
  refine ⟨key.1, key.2.1, key.2.2, ?_⟩
  intro hnil
  subst hnil
  exact ⟨key.2.1, key.2.2⟩

/-- Witness of C4 amended: the remote with the unsafe name comes second. -/
theorem Add_unsafe_name_witness :
    (Contains (remoteOf "a/b" "B").Name ".." = true ∨ Contains (remoteOf "a/b" "B").Name "/" = true ∨
      Contains (remoteOf "a/b" "B").Name "\\" = true) ∧
    (storeN1.Add sampleYaml trustDirN1 "/trust"
      ([remoteOf "n2" "B"] ++ remoteOf "a/b" "B" :: [])).err ≠ none ∧
    (storeN1.Add sampleYaml trustDirN1 "/trust"
      ([remoteOf "n2" "B"] ++ remoteOf "a/b" "B" :: [])).fs =
      (storeN1.Add sampleYaml trustDirN1 "/trust" [remoteOf "n2" "B"]).fs :=
  ⟨Or.inr (Or.inl (by decide)),
    (Add_unsafe_name sampleYaml storeN1 trustDirN1 "/trust" [remoteOf "n2" "B"]
      (remoteOf "a/b" "B") [] (Or.inr (Or.inl (by decide)))).1,
    (Add_unsafe_name sampleYaml storeN1 trustDirN1 "/trust" [remoteOf "n2" "B"]
      (remoteOf "a/b" "B") [] (Or.inr (Or.inl (by decide)))).2.2.1⟩

/-- C5: `Replace` with no remotes returns an error and leaves the store and
the file system exactly as they were. -/
theorem Replace_empty (y : Yaml) (r : Remotes) (fs : FS) (dir : String) :
    r.Replace y fs dir [] = ⟨some Error.emptyRemotes, r, fs⟩ := by
  simp [Remotes.Replace]

/-- C8, Add is strictly additive: after a call of `Add` without error every
entry held before is still there unchanged, every remote passed is stored
under its name, `Count` has grown by the number of remotes passed, and the
names passed were pairwise different and not keys before. -/
theorem Add_strictly_additive (y : Yaml) (r : Remotes) (fs : FS) (dir : String)
    (remotes : List Remote) (hok : (r.Add y fs dir remotes).err = none) :
    (∀ k v, r.data.get k = some v → (r.Add y fs dir remotes).r.data.get k = some v) ∧
    (∀ remote ∈ remotes, (r.Add y fs dir remotes).r.data.get remote.Name = some remote) ∧
    (r.Add y fs dir remotes).r.Count = r.Count + remotes.length ∧
    (remotes.map (fun remote => remote.Name)).Nodup ∧
    (∀ remote ∈ remotes, r.data.get remote.Name = none) := by
  obtain ⟨h1, h2, h3, h4⟩ := Add_ok_data y dir remotes r fs hok
  exact ⟨h1, h2, h4, Add_ok_nodup y dir remotes r fs hok, h3⟩

/-- Witness of C8: two remotes are added to the store holding `n1`. -/
theorem Add_strictly_additive_witness :
    (storeN1.Add sampleYaml trustDirN1 "/trust" [remoteOf "n2" "B", remoteOf "n3" "C"]).err = none ∧
    (storeN1.Add sampleYaml trustDirN1 "/trust"
      [remoteOf "n2" "B", remoteOf "n3" "C"]).r.Count = storeN1.Count + 2 :=
  ⟨by decide,
    (Add_strictly_additive sampleYaml storeN1 trustDirN1 "/trust"
      [remoteOf "n2" "B", remoteOf "n3" "C"] (by decide)).2.2.1⟩

/-- C10, partial Add: when the remotes `pre` are added without error and the
loop body refuses the next remote `x`, the call on `pre ++ x :: post` returns
that error and leaves exactly the store and the file system of the call on
`pre`: the remotes of `pre` are in the map and their files hold their
serialisation, nothing is undone and nothing of `x` or `post` is done. -/
theorem Add_fails_midway (y : Yaml) (r : Remotes) (fs : FS) (dir : String)
    (pre : List Remote) (x : Remote) (post : List Remote) (e : Error)
    (hpre : (r.Add y fs dir pre).err = none)
    (hx : addRemote y dir (r.Add y fs dir pre).r (r.Add y fs dir pre).fs x = .error e) :
    r.Add y fs dir (pre ++ x :: post) =
      ⟨some e, (r.Add y fs dir pre).r, (r.Add y fs dir pre).fs⟩ ∧
    ∀ z ∈ pre, (r.Add y fs dir (pre ++ x :: post)).r.data.get z.Name = some z ∧
      ∃ bytes, y.Marshal z = .ok bytes ∧
        (r.Add y fs dir (pre ++ x :: post)).fs.Stat (targetPath fs dir z.Name) =
          .ok (Node.file true bytes) := by
  have heq : r.Add y fs dir (pre ++ x :: post) =
      ⟨some e, (r.Add y fs dir pre).r, (r.Add y fs dir pre).fs⟩ := by
    rw [Add_append]
    simp [hpre, Add_cons_error _ hx]
  refine ⟨heq, ?_⟩
  intro z hz
  rw [heq]
  exact ⟨(Add_ok_data y dir pre r fs hpre).2.1 z hz, Add_ok_files y dir pre r fs hpre z hz⟩

/-- Witness of C10: the second of three remotes has no certificate. -/
theorem Add_fails_midway_witness :
    (storeN1.Add sampleYaml trustDirN1 "/trust" [remoteOf "n2" "B"]).err = none ∧
    storeN1.Add sampleYaml trustDirN1 "/trust"
      ([remoteOf "n2" "B"] ++ (⟨⟨"n3", AddrPort.zero⟩, ⟨none⟩⟩ : Remote) :: [remoteOf "n4" "D"]) =
      ⟨some (Error.emptyCertificate "n3"),
        (storeN1.Add sampleYaml trustDirN1 "/trust" [remoteOf "n2" "B"]).r,
        (storeN1.Add sampleYaml trustDirN1 "/trust" [remoteOf "n2" "B"]).fs⟩ :=
  ⟨by decide,
    (Add_fails_midway sampleYaml storeN1 trustDirN1 "/trust" [remoteOf "n2" "B"]
      ⟨⟨"n3", AddrPort.zero⟩, ⟨none⟩⟩ [remoteOf "n4" "D"] (Error.emptyCertificate "n3")
      (by decide) (by decide)).1⟩

/-! ## Claims on `Load` -/

theorem loadEntries_skip (y : Yaml) (fs : FS) (dir : String) (files : List DirEntry)
    (remoteData : RemoteMap)
    (h : ∀ file ∈ files, file.IsDir = true ∨ HasSuffix file.Name ".yaml" = false) :
    loadEntries y fs dir files remoteData = .ok remoteData := by
  induction files with
  | nil => rfl
  | cons file files ih =>
    have hfile : (file.IsDir || !HasSuffix file.Name ".yaml") = true := by
      rcases h file (List.mem_cons_self _ _) with h1 | h1 <;> simp [h1]
    unfold loadEntries
    simp only [hfile, if_true]
    exact ih (fun f hf => h f (List.mem_cons_of_mem _ hf))

theorem loadEntries_fails (y : Yaml) (fs : FS) (dir : String) (files : List DirEntry)
    (file : DirEntry) (hmem : file ∈ files) (hreg : file.IsDir = false)
    (hsuf : HasSuffix file.Name ".yaml" = true)
    (hbad : recordFileFails y fs dir file.Name = true) :
    ∀ remoteData, ∃ e, loadEntries y fs dir files remoteData = .error e := by
  induction files with
  | nil => cases hmem
  | cons f files ih =>
    intro remoteData
    rw [loadEntries]
    split
    · rename_i hskip
      rcases List.mem_cons.1 hmem with heq | hin
      · subst heq; simp [hreg, hsuf] at hskip
      · exact ih hin remoteData
    · split
      · exact ⟨_, rfl⟩
      · rename_i content hread
        split
        · exact ⟨_, rfl⟩
        · rename_i remote hparse
          split
          · exact ⟨_, rfl⟩
          · rename_i hcert
            rcases List.mem_cons.1 hmem with heq | hin
            · subst heq
              simp [recordFileFails, hread, hparse, hcert] at hbad
            · exact ih hin _

/-- A call of `Load` never changes the file system, and one that returns an
error leaves the store as it was. -/
theorem Load_frame (y : Yaml) (r : Remotes) (fs : FS) (dir : String) :
    (r.Load y fs dir).fs = fs ∧ ((r.Load y fs dir).err ≠ none → (r.Load y fs dir).r = r) := by
  unfold Remotes.Load
  split
  · simp
  · split
    · simp
    · split
      · simp
      · simp

/-- C3 as stated fails: the store holds a record and the only record file of
the directory cannot be parsed, so the directory yields no parseable record
file, yet `Load` returns an error (the map is kept). -/
theorem Load_unparseable_counterexample :
    storeN1.Count = 1 ∧
    trustDirBroken.ReadDir "/trust" = .ok [⟨"n1.yaml", false⟩] ∧
    recordFileFails sampleYaml trustDirBroken "/trust" "n1.yaml" = true ∧
    storeN1.Load sampleYaml trustDirBroken "/trust" =
      ⟨some (Error.parseFailed "n1.yaml" "yaml: cannot parse the document"),
        storeN1, trustDirBroken⟩ := by
  decide

/-- C3 amended: for a store that holds at least one record and a readable
directory in which no entry is a record file (every entry is a directory or
lacks the yaml suffix), `Load` returns no error and leaves the store, hence
`Count` and every query, as it was. -/
theorem Load_keeps_store_without_record_files (y : Yaml) (r : Remotes) (fs : FS) (dir : String)
    (files : List DirEntry) (hdata : r.Count ≠ 0) (hdir : fs.ReadDir dir = .ok files)
    (hnone : ∀ file ∈ files, file.IsDir = true ∨ HasSuffix file.Name ".yaml" = false) :
    r.Load y fs dir = ⟨none, r, fs⟩ := by
  unfold Remotes.Load
  simp only [hdir, loadEntries_skip y fs dir files [] hnone]
  have h : r.data.length ≠ 0 := hdata
  simp [h]

/-- Witness of C3 amended: the directory holds a text file and a
subdirectory. -/
theorem Load_keeps_store_without_record_files_witness :
    storeN1.Count ≠ 0 ∧
    trustDirNoRecords.ReadDir "/trust" = .ok [⟨"README", false⟩, ⟨"old.yaml", true⟩] ∧
    storeN1.Load sampleYaml trustDirNoRecords "/trust" = ⟨none, storeN1, trustDirNoRecords⟩ :=
  ⟨by decide, by decide,
    Load_keeps_store_without_record_files sampleYaml storeN1 trustDirNoRecords "/trust"
      [⟨"README", false⟩, ⟨"old.yaml", true⟩] (by decide) (by decide) (by decide)⟩

/-- C9, Load is all-or-nothing: when the directory can be listed and one of
its record files (a yaml-suffixed entry that is not a directory) cannot be
read, cannot be parsed or decodes to a record without certificate, `Load`
returns an error and the store and the file system are exactly what they
were. -/
theorem Load_all_or_nothing (y : Yaml) (r : Remotes) (fs : FS) (dir : String)
    (files : List DirEntry) (hdir : fs.ReadDir dir = .ok files)
    (file : DirEntry) (hmem : file ∈ files) (hreg : file.IsDir = false)
    (hsuf : HasSuffix file.Name ".yaml" = true)
    (hbad : recordFileFails y fs dir file.Name = true) :
    (r.Load y fs dir).err ≠ none ∧ (r.Load y fs dir).r = r ∧ (r.Load y fs dir).fs = fs := by
  have herr : (r.Load y fs dir).err ≠ none := by
    obtain ⟨e, he⟩ := loadEntries_fails y fs dir files file hmem hreg hsuf hbad []
    unfold Remotes.Load
    simp [hdir, he]
  exact ⟨herr, (Load_frame y r fs dir).2 herr, (Load_frame y r fs dir).1⟩

/-- Witness of C9: the second record file of the directory is empty and
decodes to a record without certificate. -/
theorem Load_all_or_nothing_witness :
    trustDirEmptyFile.ReadDir "/trust" = .ok [⟨"n1.yaml", false⟩, ⟨"n2.yaml", false⟩] ∧
    recordFileFails sampleYaml trustDirEmptyFile "/trust" "n2.yaml" = true ∧
    (Remotes.Load sampleYaml ⟨[]⟩ trustDirEmptyFile "/trust").err ≠ none ∧
    (Remotes.Load sampleYaml ⟨[]⟩ trustDirEmptyFile "/trust").r = ⟨[]⟩ ∧
    (Remotes.Load sampleYaml ⟨[]⟩ trustDirEmptyFile "/trust").fs = trustDirEmptyFile :=
  ⟨by decide, by decide,
    Load_all_or_nothing sampleYaml ⟨[]⟩ trustDirEmptyFile "/trust"
      [⟨"n1.yaml", false⟩, ⟨"n2.yaml", false⟩] (by decide) ⟨"n2.yaml", false⟩
      (by decide) (by decide) (by decide) (by decide)⟩

/-! ## Claims on the queries -/

/-- C7 as stated fails: in a store where two names carry the same certificate
the lookup by the fingerprint of that certificate cannot return both records,
whatever the fingerprint function and the order of the map. -/
theorem RemoteByCertificateFingerprint_counterexample :
    ¬ ∀ (CertFingerprint : Option Certificate → String) (r : Remotes) (k : String) (R : Remote),
      (k, R) ∈ r.data →
      r.RemoteByCertificateFingerprint CertFingerprint
        (CertFingerprint R.Certificate.Certificate) = some R := by
  intro h
  have h1 := h rawFingerprint storeSharedCert "n1" (remoteOf "n1" "A") (by decide)
  have h2 := h rawFingerprint storeSharedCert "n2" (remoteOf "n2" "A") (by decide)
  have h3 : rawFingerprint (remoteOf "n2" "A").Certificate.Certificate =
      rawFingerprint (remoteOf "n1" "A").Certificate.Certificate := rfl
  rw [h3, h1] at h2
  exact absurd h2 (by decide)

/-- C7 amended: for every record `R` of the store the lookup by the
fingerprint of its certificate returns a record of the store with that
fingerprint, and returns `R` itself when no other record of the store has
that fingerprint; for a fingerprint that no record of the store has, the
lookup returns nil. -/
theorem RemoteByCertificateFingerprint_spec (CertFingerprint : Option Certificate → String)
    (r : Remotes) :
    (∀ k R, (k, R) ∈ r.data →
      ∃ R1, r.RemoteByCertificateFingerprint CertFingerprint
          (CertFingerprint R.Certificate.Certificate) = some R1 ∧
        (∃ k1, (k1, R1) ∈ r.data) ∧
        CertFingerprint R1.Certificate.Certificate = CertFingerprint R.Certificate.Certificate ∧
        ((∀ k2 R2, (k2, R2) ∈ r.data →
            CertFingerprint R2.Certificate.Certificate =
              CertFingerprint R.Certificate.Certificate → R2 = R) → R1 = R)) ∧
    (∀ fingerprint, (∀ k R, (k, R) ∈ r.data →
        CertFingerprint R.Certificate.Certificate ≠ fingerprint) →
      r.RemoteByCertificateFingerprint CertFingerprint fingerprint = none) := by
  constructor
  · intro k R hR
    unfold Remotes.RemoteByCertificateFingerprint
    cases hfind : r.data.find? (fun e => decide (CertFingerprint R.Certificate.Certificate =
        CertFingerprint e.2.Certificate.Certificate)) with
    | none =>
      have := List.find?_eq_none.1 hfind (k, R) hR
      simp at this
    | some e =>
      have hmem := List.mem_of_find?_eq_some hfind
      have hprop := List.find?_some hfind
      simp only [decide_eq_true_eq] at hprop
      exact ⟨e.2, rfl, ⟨e.1, hmem⟩, hprop.symm, fun huniq => huniq e.1 e.2 hmem hprop.symm⟩
  · intro fingerprint hnone
    unfold Remotes.RemoteByCertificateFingerprint
    have hfind : r.data.find? (fun e => decide (fingerprint =
        CertFingerprint e.2.Certificate.Certificate)) = none := by
      rw [List.find?_eq_none]
      intro e he
      have := hnone e.1 e.2 he
      simpa using fun heq => this heq.symm
    rw [hfind]

/-- Witness of C7 amended: in the store with a shared certificate the lookup
returns the record `n1` for the fingerprint of the record `n2`, and nil for a
fingerprint not in the store. -/
theorem RemoteByCertificateFingerprint_spec_witness :
    (∃ R1, storeSharedCert.RemoteByCertificateFingerprint rawFingerprint
        (rawFingerprint (remoteOf "n2" "A").Certificate.Certificate) = some R1 ∧
      rawFingerprint R1.Certificate.Certificate = "A") ∧
    storeSharedCert.RemoteByCertificateFingerprint rawFingerprint "B" = none := by
  have w := RemoteByCertificateFingerprint_spec rawFingerprint storeSharedCert
  have hB : ∀ k R, (k, R) ∈ storeSharedCert.data →
      rawFingerprint R.Certificate.Certificate ≠ "B" := by
    intro k R hR
    simp only [storeSharedCert, List.mem_cons, Prod.mk.injEq, List.mem_nil_iff, or_false] at hR
    rcases hR with ⟨_, rfl⟩ | ⟨_, rfl⟩ <;> decide
  refine ⟨?_, w.2 "B" hB⟩
  obtain ⟨R1, h1, _, h3, _⟩ := w.1 "n2" (remoteOf "n2" "A") (by decide)
  exact ⟨R1, h1, h3⟩

/-! ## `Replace` with names that are not plain file names -/

/-- C1, evaluated where the code departs from it: `Replace` with the single
member `./n1` returns no error and stores the record under `./n1`, but the
file it wrote, `/trust/n1.yaml`, is then removed as stale because `n1` is not
a key of the new map: no file holds the record. -/
theorem Replace_unclean_name_loses_file :
    replaceDotSlash.err = none ∧
    replaceDotSlash.r.data.keys = ["./n1"] ∧
    targetPath replaceDotSlash.fs "/trust" "./n1" = "/trust/n1.yaml" ∧
    replaceDotSlash.fs.Stat (targetPath replaceDotSlash.fs "/trust" "./n1") =
      .error Errno.ENOENT ∧
    replaceDotSlash.fs.ReadDir "/trust" = .ok [] := by
  decide

/-- C6, evaluated where the code departs from it: from the empty store and
the empty directory the calls `Replace` with `n1`, `Add` of `n2` and `Replace`
with `n1` and `./n2` all return no error; afterwards the map has the names
`n1` and `./n2`, the directory has only `n1.yaml`, and `Load` into a fresh
store yields only `n1`. -/
theorem Replace_unclean_name_breaks_correspondence :
    (Remotes.Replace sampleYaml ⟨[]⟩ emptyTrustDir "/trust" [memberOf "n1" "A"]).err = none ∧
    ((Remotes.Replace sampleYaml ⟨[]⟩ emptyTrustDir "/trust" [memberOf "n1" "A"]).r.Add sampleYaml
      (Remotes.Replace sampleYaml ⟨[]⟩ emptyTrustDir "/trust" [memberOf "n1" "A"]).fs "/trust"
      [remoteOf "n2" "B"]).err = none ∧
    replaceAddReplace.err = none ∧
    replaceAddReplace.r.data.keys = ["n1", "./n2"] ∧
    replaceAddReplace.fs.ReadDir "/trust" = .ok [⟨"n1.yaml", false⟩] ∧
    (Remotes.Load sampleYaml ⟨[]⟩ replaceAddReplace.fs "/trust").err = none ∧
    (Remotes.Load sampleYaml ⟨[]⟩ replaceAddReplace.fs "/trust").r.data.keys = ["n1"] := by
  decide

/-! ## Claims on the endpoint type -/

/-- C11, the empty endpoint: `ParseAddrPort` of the empty string is
`AddrPort{}` without error, `String` of `AddrPort{}` is the empty string,
`MarshalJSON` and `MarshalYAML` of `AddrPort{}` give the empty string (the
JSON text of two quotes, for a json library that encodes the empty string so
and decodes it back), and `UnmarshalJSON` and `UnmarshalYAML` of the empty
string leave `AddrPort{}` in the receiver without error. -/
theorem AddrPort_empty_round_trip (n : Netip) (j : Json) (a : AddrPort)
    (hmarshal : j.Marshal "" = .ok "\"\"")
    (hunmarshal : j.Unmarshal "\"\"" "" = .ok "") :
    ParseAddrPort n "" = .ok AddrPort.zero ∧
    AddrPort.zero.String n = "" ∧
    MarshalJSON j n AddrPort.zero = .ok "\"\"" ∧
    MarshalYAML n AddrPort.zero = .ok "" ∧
    UnmarshalJSON j n a "\"\"" = (AddrPort.zero, none) ∧
    (∀ unmarshal : String → Except String String, unmarshal "" = .ok "" →
      UnmarshalYAML n a unmarshal = (AddrPort.zero, none)) := by
  have hparse : ParseAddrPort n "" = .ok AddrPort.zero := by simp [ParseAddrPort]
  have hstr : AddrPort.zero.String n = "" := by simp [AddrPort.String]
  refine ⟨hparse, hstr, ?_, ?_, ?_, ?_⟩
  · simp [MarshalJSON, hstr, hmarshal]
  · simp [MarshalYAML, hstr]
  · simp [UnmarshalJSON, hunmarshal, hparse]
  · intro unmarshal hu
    simp [UnmarshalYAML, hu, hparse]

/-- Witness of C11: the stand-in libraries, with a receiver that held an
address before. -/
theorem AddrPort_empty_round_trip_witness :
    sampleJson.Marshal "" = .ok "\"\"" ∧ sampleJson.Unmarshal "\"\"" "" = .ok "" ∧
    MarshalJSON sampleJson sampleNetip AddrPort.zero = .ok "\"\"" ∧
    UnmarshalJSON sampleJson sampleNetip (sampleAddr 1) "\"\"" = (AddrPort.zero, none) :=
  ⟨by decide, by decide,
    (AddrPort_empty_round_trip sampleNetip sampleJson (sampleAddr 1)
      (by decide) (by decide)).2.2.1,
    (AddrPort_empty_round_trip sampleNetip sampleJson (sampleAddr 1)
      (by decide) (by decide)).2.2.2.2.1⟩

theorem set_length_append (done : List AddrPort) (x a : AddrPort) (tl : List AddrPort) :
    (done ++ x :: tl).set done.length a = done ++ a :: tl := by
  induction done with
  | nil => rfl
  | cons d ds ih => simp [List.set, ih]

theorem parseAddrPortsLoop_ok (n : Netip) (rest : List String) :
    ∀ (done parsed : List AddrPort),
      List.Forall₂ (fun s a => ParseAddrPort n s = .ok a) rest parsed →
      parseAddrPortsLoop n rest done.length (done ++ List.replicate rest.length AddrPort.zero) =
        (some (done ++ parsed), none) := by
  induction rest with
  | nil =>
    intro done parsed h
    cases h
    simp [parseAddrPortsLoop]
  | cons s rest ih =>
    intro done parsed h
    cases h with
    | cons hs hrest =>
      rename_i a parsedRest
      rw [parseAddrPortsLoop, hs]
      simp only [List.length_cons, List.replicate_succ]
      rw [set_length_append]
      have := ih (done ++ [a]) parsedRest hrest
      simpa using this

theorem parseAddrPortsLoop_error (n : Netip) (pre : List String) (s : String)
    (post : List String) (err : String) (hs : ParseAddrPort n s = .error err) :
    ∀ (i : Nat) (addrPorts : List AddrPort),
      (∀ x ∈ pre, ∃ a, ParseAddrPort n x = .ok a) →
      parseAddrPortsLoop n (pre ++ s :: post) i addrPorts = (none, some err) := by
  induction pre with
  | nil => intro i addrPorts _; simp [parseAddrPortsLoop, hs]
  | cons x pre ih =>
    intro i addrPorts hpre
    obtain ⟨a, ha⟩ := hpre x (List.mem_cons_self _ _)
    simp only [List.cons_append, parseAddrPortsLoop, ha]
    exact ih _ _ (fun z hz => hpre z (List.mem_cons_of_mem _ hz))

theorem exists_parsed (n : Netip) (strs : List String)
    (h : ∀ s ∈ strs, ∃ a, ParseAddrPort n s = .ok a) :
    ∃ parsed, List.Forall₂ (fun s a => ParseAddrPort n s = .ok a) strs parsed := by
  induction strs with
  | nil => exact ⟨[], List.Forall₂.nil⟩
  | cons s strs ih =>
    obtain ⟨a, ha⟩ := h s (List.mem_cons_self _ _)
    obtain ⟨parsed, hp⟩ := ih (fun z hz => h z (List.mem_cons_of_mem _ hz))
    exact ⟨a :: parsed, List.Forall₂.cons ha hp⟩

/-- C12, `ParseAddrPorts` is all-or-nothing: when every string parses, the
result is a slice of the same length whose elements are the parsed strings
in order, without error; when a string fails after strings that parse, the
result is the nil slice with the error of that first failing string. -/
theorem ParseAddrPorts_all_or_nothing (n : Netip) (addrPortStrs : List String) :
    ((∀ s ∈ addrPortStrs, ∃ a, ParseAddrPort n s = .ok a) →
      ∃ parsed, ParseAddrPorts n addrPortStrs = (some parsed, none) ∧
        parsed.length = addrPortStrs.length ∧
        List.Forall₂ (fun s a => ParseAddrPort n s = .ok a) addrPortStrs parsed) ∧
    (∀ pre s post err, addrPortStrs = pre ++ s :: post →
      (∀ x ∈ pre, ∃ a, ParseAddrPort n x = .ok a) → ParseAddrPort n s = .error err →
      ParseAddrPorts n addrPortStrs = (none, some err)) := by
  constructor
  · intro h
    obtain ⟨parsed, hp⟩ := exists_parsed n addrPortStrs h
    refine ⟨parsed, ?_, hp.length_eq.symm, hp⟩
    have := parseAddrPortsLoop_ok n addrPortStrs [] parsed hp
    simpa [ParseAddrPorts] using this
  · intro pre s post err heq hpre hs
    subst heq
    exact parseAddrPortsLoop_error n pre s post err hs _ _ hpre

/-- Witness of C12: three strings that parse, the second one empty, and a
list whose second and third strings do not parse. -/
theorem ParseAddrPorts_all_or_nothing_witness :
    ParseAddrPorts sampleNetip ["10.0.0.1:8443", "", "10.0.0.2:8443"] =
      (some [sampleAddr 1, AddrPort.zero, sampleAddr 2], none) ∧
    ParseAddrPorts sampleNetip ["10.0.0.1:8443", "first bad", "second bad"] =
      (none, some "not an ip:port") := by
  have w := ParseAddrPorts_all_or_nothing sampleNetip ["10.0.0.1:8443", "first bad", "second bad"]
  refine ⟨by decide, ?_⟩
  refine w.2 ["10.0.0.1:8443"] "first bad" ["second bad"] "not an ip:port" rfl ?_ (by decide)
  intro x hx
  rw [List.mem_singleton] at hx
  subst hx
  exact ⟨sampleAddr 1, by decide⟩

/-- C14, `RemoteByAddress`: when a record of the store has an address with
the same string form as the endpoint, the result is a record of the store
with that string form; the result is nil exactly when no record of the store
has it.  The query computes its result from the store and changes nothing. -/
theorem RemoteByAddress_spec (n : Netip) (r : Remotes) (addrPort : AddrPort) :
    (∀ k R, (k, R) ∈ r.data → R.Address.String n = addrPort.String n →
      ∃ R1, r.RemoteByAddress n addrPort = some R1 ∧ (∃ k1, (k1, R1) ∈ r.data) ∧
        R1.Address.String n = addrPort.String n) ∧
    (r.RemoteByAddress n addrPort = none ↔
      ∀ k R, (k, R) ∈ r.data → R.Address.String n ≠ addrPort.String n) := by
  unfold Remotes.RemoteByAddress
  cases hfind : r.data.find? (fun e => decide (e.2.Address.String n = addrPort.String n)) with
  | none =>
    have hnone := List.find?_eq_none.1 hfind
    constructor
    · intro k R hR heq
      have := hnone (k, R) hR
      simp [heq] at this
    · simp only [true_iff]
      intro k R hR
      have := hnone (k, R) hR
      simpa using this
  | some e =>
    have hmem := List.mem_of_find?_eq_some hfind
    have hprop := List.find?_some hfind
    simp only [decide_eq_true_eq] at hprop
    constructor
    · intro k R _ _
      exact ⟨e.2, rfl, ⟨e.1, hmem⟩, hprop⟩
    · constructor
      · intro h; cases h
      · intro h; exact absurd hprop (h e.1 e.2 hmem)

/-- Witness of C14: the store with two remotes, asked for the address of the
second and for an address it does not hold. -/
theorem RemoteByAddress_spec_witness :
    storeTwo.RemoteByAddress sampleNetip (sampleAddr 2) = some (remoteAt "n2" 2 "B") ∧
    storeTwo.RemoteByAddress sampleNetip (sampleAddr 3) = none := by
  have w := RemoteByAddress_spec sampleNetip storeTwo (sampleAddr 3)
  refine ⟨by decide, w.2.2 ?_⟩
  intro k R hR
  simp only [storeTwo, List.mem_cons, Prod.mk.injEq, List.mem_nil_iff, or_false] at hR
  rcases hR with ⟨_, rfl⟩ | ⟨_, rfl⟩ <;> decide

/-! ## Claims on names and on `Replace` -/

/-- C15 as stated fails: a record whose name is the empty string passes the
name check; `Add` and `Replace` return no error, store it under the empty
name and write the file `/trust/.yaml`. -/
theorem empty_name_counterexample :
    (remoteOf "" "A").Name = "" ∧
    (Remotes.Add sampleYaml ⟨[]⟩ emptyTrustDir "/trust" [remoteOf "" "A"]).err = none ∧
    (Remotes.Add sampleYaml ⟨[]⟩ emptyTrustDir "/trust" [remoteOf "" "A"]).r.data.get "" =
      some (remoteOf "" "A") ∧
    (Remotes.Add sampleYaml ⟨[]⟩ emptyTrustDir "/trust" [remoteOf "" "A"]).fs.Stat "/trust/.yaml" =
      .ok (Node.file true "name: \n") ∧
    (memberOf "" "A").Name = "" ∧
    (Remotes.Replace sampleYaml ⟨[]⟩ emptyTrustDir "/trust" [memberOf "" "A"]).err = none ∧
    (Remotes.Replace sampleYaml ⟨[]⟩ emptyTrustDir "/trust" [memberOf "" "A"]).r.data.get "" =
      some (remoteOf "" "A") ∧
    (Remotes.Replace sampleYaml ⟨[]⟩ emptyTrustDir "/trust" [memberOf "" "A"]).fs.Stat
      "/trust/.yaml" = .ok (Node.file true "name: \n") := by
  decide

/-- The first loop of `Replace` on `pre ++ post` is the loop on `pre` when
that fails, and otherwise the loop on `post` from what the loop on `pre`
leaves. -/
theorem replaceWrite_append (y : Yaml) (dir : String) (pre post : List ClusterMember) :
    ∀ (remoteData : RemoteMap) (fs : FS),
      replaceWrite y dir (pre ++ post) remoteData fs =
        if (replaceWrite y dir pre remoteData fs).1 = none
        then replaceWrite y dir post (replaceWrite y dir pre remoteData fs).2.1
          (replaceWrite y dir pre remoteData fs).2.2
        else replaceWrite y dir pre remoteData fs := by
  induction pre with
  | nil => intro remoteData fs; simp [replaceWrite]
  | cons member pre ih =>
    intro remoteData fs
    simp only [List.cons_append]
    rw [replaceWrite, replaceWrite]
    split
    · simp
    · split
      · simp
      · split
        · simp
        · split
          · simp
          · exact ih _ _

/-- The first loop of `Replace` leaves the entry of a name alone that none of
its members has. -/
theorem replaceWrite_get_other (y : Yaml) (dir name : String) (members : List ClusterMember)
    (hother : ∀ m ∈ members, m.Name ≠ name) :
    ∀ (remoteData : RemoteMap) (fs : FS),
      (replaceWrite y dir members remoteData fs).2.1.get name = remoteData.get name := by
  induction members with
  | nil => intro remoteData fs; rfl
  | cons member rest ih =>
    intro remoteData fs
    have hne : name ≠ member.Name := fun h => hother member (List.mem_cons_self _ _) h.symm
    have hrest : ∀ m ∈ rest, m.Name ≠ name := fun m hm => hother m (List.mem_cons_of_mem _ hm)
    rw [replaceWrite]
    split
    · rfl
    · split
      · rfl
      · split
        · rfl
        · split
          · rfl
          · rw [ih hrest, RemoteMap.get_set_ne _ _ _ _ hne]

/-- A first loop of `Replace` that ends without error has stored, under the
name of a member after which no member has that name, the record built from
that member. -/
theorem replaceWrite_get_last (y : Yaml) (dir : String) (pre : List ClusterMember)
    (member : ClusterMember) (post : List ClusterMember)
    (hpost : ∀ m ∈ post, m.Name ≠ member.Name) (remoteData : RemoteMap) (fs : FS)
    (hok : (replaceWrite y dir (pre ++ member :: post) remoteData fs).1 = none) :
    (replaceWrite y dir (pre ++ member :: post) remoteData fs).2.1.get member.Name =
      some ⟨⟨member.Name, member.Address⟩, member.Certificate⟩ := by
  rw [replaceWrite_append] at hok ⊢
  by_cases hpre : (replaceWrite y dir pre remoteData fs).1 = none
  · simp only [hpre, if_true] at hok ⊢
    rw [replaceWrite] at hok ⊢
    split
    · rename_i h; simp [h] at hok
    · rename_i hcert
      simp only [hcert, if_false] at hok
      split
      · rename_i h; simp [h] at hok
      · rename_i bytes hm
        simp only [hm] at hok
        split
        · rename_i h; simp [h] at hok
        · rename_i path hp
          simp only [hp] at hok
          split
          · rename_i h; simp [h] at hok
          · rw [replaceWrite_get_other y dir member.Name post hpost,
              RemoteMap.get_set_self]
  · simp [hpre] at hok

/-- A call of `Replace` that returns no error leaves the map its first loop
built. -/
theorem Replace_ok_data (y : Yaml) (r : Remotes) (fs : FS) (dir : String)
    (newRemotes : List ClusterMember) (hok : (r.Replace y fs dir newRemotes).err = none) :
    (replaceWrite y dir newRemotes [] fs).1 = none ∧
    (r.Replace y fs dir newRemotes).r.data = (replaceWrite y dir newRemotes [] fs).2.1 := by
  unfold Remotes.Replace at hok ⊢
  by_cases hlen : newRemotes.length = 0
  · simp [hlen] at hok
  · simp only [hlen, if_false] at hok ⊢
    cases hw : replaceWrite y dir newRemotes [] fs with
    | mk e rest =>
      obtain ⟨remoteData, fs1⟩ := rest
      cases e with
      | some err => simp [hw] at hok
      | none =>
        simp only [hw] at hok ⊢
        cases hrd : fs1.ReadDir dir with
        | error e => simp [hrd] at hok
        | ok allEntries =>
          simp only [hrd] at hok ⊢
          cases hcl : replaceClean dir remoteData allEntries fs1 with
          | mk e2 fs2 =>
            cases e2 with
            | some err => simp [hcl] at hok
            | none =>
              simp only [hcl] at hok ⊢
              by_cases hne : remoteData.length = 0
              · simp [hne] at hok
              · simp [hne]

/-- C15 amended: record names may be empty.  The empty string passes
`validateRemoteName`.  A call of `Add` that returns no error, with any
remotes among which one has the empty name, has stored that remote under the
empty name and its serialisation in the file `.yaml` of the directory.  A
call of `Replace` that returns no error, with any members among which one has
the empty name, has stored under the empty name the record built from the
last such member. -/
theorem empty_name_accepted (y : Yaml) (r : Remotes) (fs : FS) (dir : String)
    (remotes : List Remote) (remote : Remote)
    (pre : List ClusterMember) (member : ClusterMember) (post : List ClusterMember)
    (hmem : remote ∈ remotes) (hremote : remote.Name = "")
    (hmember : member.Name = "") (hpost : ∀ m ∈ post, m.Name ≠ "") :
    validateRemoteName "" = none ∧
    ((r.Add y fs dir remotes).err = none →
      (r.Add y fs dir remotes).r.data.get "" = some remote ∧
      ∃ bytes, y.Marshal remote = .ok bytes ∧
        (r.Add y fs dir remotes).fs.Stat (fs.Abs (Join dir ".yaml")) =
          .ok (Node.file true bytes)) ∧
    ((r.Replace y fs dir (pre ++ member :: post)).err = none →
      (r.Replace y fs dir (pre ++ member :: post)).r.data.get "" =
        some ⟨⟨"", member.Address⟩, member.Certificate⟩) := by
  refine ⟨by decide, ?_, ?_⟩
  · intro hok
    have h1 := (Add_ok_data y dir remotes r fs hok).2.1 remote hmem
    obtain ⟨bytes, hb1, hb2⟩ := Add_ok_files y dir remotes r fs hok remote hmem
    rw [hremote] at h1 hb2
    exact ⟨h1, bytes, hb1, hb2⟩
  · intro hok
    obtain ⟨hw, hdata⟩ := Replace_ok_data y r fs dir (pre ++ member :: post) hok
    have hlast := replaceWrite_get_last y dir pre member post
      (by rw [hmember]; exact hpost) [] fs hw
    rw [hmember] at hlast
    rw [hdata]
    exact hlast

/-- Witness of C15 amended: `Add` of `n2` and of a remote with the empty name,
and `Replace` with two members of the empty name followed by `n1`, on the
empty store and the empty directory. -/
theorem empty_name_accepted_witness :
    (Remotes.Add sampleYaml ⟨[]⟩ emptyTrustDir "/trust"
      [remoteOf "n2" "B", remoteOf "" "A"]).err = none ∧
    (Remotes.Add sampleYaml ⟨[]⟩ emptyTrustDir "/trust"
      [remoteOf "n2" "B", remoteOf "" "A"]).r.data.get "" = some (remoteOf "" "A") ∧
    (Remotes.Add sampleYaml ⟨[]⟩ emptyTrustDir "/trust"
      [remoteOf "n2" "B", remoteOf "" "A"]).fs.Stat "/trust/.yaml" =
        .ok (Node.file true "name: \n") ∧
    (Remotes.Replace sampleYaml ⟨[]⟩ emptyTrustDir "/trust"
      ([memberOf "" "B"] ++ memberOf "" "A" :: [memberOf "n1" "A"])).err = none ∧
    (Remotes.Replace sampleYaml ⟨[]⟩ emptyTrustDir "/trust"
      ([memberOf "" "B"] ++ memberOf "" "A" :: [memberOf "n1" "A"])).r.data.get "" =
        some (remoteOf "" "A") := by
  have hpost : ∀ m ∈ [memberOf "n1" "A"], m.Name ≠ "" := by
    intro m hm
    rw [List.mem_singleton] at hm
    subst hm
    decide
  have w := empty_name_accepted sampleYaml ⟨[]⟩ emptyTrustDir "/trust"
    [remoteOf "n2" "B", remoteOf "" "A"] (remoteOf "" "A")
    [memberOf "" "B"] (memberOf "" "A") [memberOf "n1" "A"]
    (by decide) rfl rfl hpost
  have hadd : (Remotes.Add sampleYaml ⟨[]⟩ emptyTrustDir "/trust"
      [remoteOf "n2" "B", remoteOf "" "A"]).err = none := by decide
  have hrep : (Remotes.Replace sampleYaml ⟨[]⟩ emptyTrustDir "/trust"
      ([memberOf "" "B"] ++ memberOf "" "A" :: [memberOf "n1" "A"])).err = none := by decide
  obtain ⟨hget, bytes, hbytes, hstat⟩ := w.2.1 hadd
  refine ⟨hadd, hget, ?_, hrep, w.2.2 hrep⟩
  have hb : bytes = "name: \n" := by
    have h2 : sampleYaml.Marshal (remoteOf "" "A") = .ok "name: \n" := by decide
    rw [h2] at hbytes
    exact (Except.ok.inj hbytes).symm
  rw [hb] at hstat
  exact hstat

/-- C17, evaluated where the code departs from it: for the directory `/trust`
and the name `../trust2/n1` the function `remoteYamlPath` returns
`/trust2/n1.yaml` without error, since that string begins with `/trust`; the
path lies in the sibling directory `/trust2`, not within `/trust`, and
`Replace` writes the file there. -/
theorem remoteYamlPath_accepts_sibling :
    remoteYamlPath siblingDirs "/trust" "../trust2/n1" = .ok "/trust2/n1.yaml" ∧
    siblingDirs.resolve "/trust" = .ok ["trust"] ∧
    siblingDirs.resolve "/trust2/n1.yaml" = .ok ["trust2", "n1.yaml"] ∧
    ¬ (["trust"] <+: ["trust2", "n1.yaml"]) ∧
    (Remotes.Replace sampleYaml ⟨[]⟩ siblingDirs "/trust" [memberOf "../trust2/n1" "A"]).err = none ∧
    (Remotes.Replace sampleYaml ⟨[]⟩ siblingDirs "/trust"
      [memberOf "../trust2/n1" "A"]).fs.nodeAt ["trust2", "n1.yaml"] =
        some (Node.file true "name: ../trust2/n1\n") ∧
    (Remotes.Replace sampleYaml ⟨[]⟩ siblingDirs "/trust"
      [memberOf "../trust2/n1" "A"]).fs.ReadDir "/trust" = .ok [] := by
  decide

/-- C19, `Replace` never exposes a partial mapping: whenever `Replace` returns
an error the store is exactly what it was before the call. -/
theorem Replace_error_keeps_store (y : Yaml) (r : Remotes) (fs : FS) (dir : String)
    (newRemotes : List ClusterMember) (herr : (r.Replace y fs dir newRemotes).err ≠ none) :
    (r.Replace y fs dir newRemotes).r = r := by
  unfold Remotes.Replace at herr ⊢
  repeat' split
  all_goals first
    | rfl
    | (exfalso; revert herr; simp_all)

/-- Witness of C19: the second member has no certificate; the file of the first
has been written, the store is unchanged. -/
theorem Replace_error_keeps_store_witness :
    (storeN1.Replace sampleYaml emptyTrustDir "/trust"
      [memberOf "n2" "B", ⟨"n3", AddrPort.zero, ⟨none⟩⟩]).err ≠ none ∧
    (storeN1.Replace sampleYaml emptyTrustDir "/trust"
      [memberOf "n2" "B", ⟨"n3", AddrPort.zero, ⟨none⟩⟩]).r = storeN1 ∧
    (storeN1.Replace sampleYaml emptyTrustDir "/trust"
      [memberOf "n2" "B", ⟨"n3", AddrPort.zero, ⟨none⟩⟩]).fs.Stat "/trust/n2.yaml" =
        .ok (Node.file true "name: n2\n") :=
  ⟨by decide,
    Replace_error_keeps_store sampleYaml storeN1 emptyTrustDir "/trust"
      [memberOf "n2" "B", ⟨"n3", AddrPort.zero, ⟨none⟩⟩] (by decide),
    by decide⟩

/-! ## The key and name invariant -/

theorem RemoteMap.keys_set (m : RemoteMap) (k : String) (v : Remote) :
    (m.set k v).keys = if k ∈ m.keys then m.keys else m.keys ++ [k] := by
  induction m with
  | nil => simp [RemoteMap.set, RemoteMap.keys]
  | cons e rest ih =>
    obtain ⟨k1, v1⟩ := e
    by_cases h : k1 = k
    · subst h
      simp [RemoteMap.set, RemoteMap.keys]
    · have h2 : ¬ k = k1 := fun h3 => h h3.symm
      simp only [RemoteMap.keys] at ih
      by_cases hk : k ∈ List.map Prod.fst rest
      · simp [RemoteMap.set, RemoteMap.keys, h, h2, hk, ih]
      · simp [RemoteMap.set, RemoteMap.keys, h, h2, hk, ih]

theorem RemoteMap.mem_set (m : RemoteMap) (k : String) (v : Remote) (e : String × Remote)
    (he : e ∈ m.set k v) : e ∈ m ∨ e = (k, v) := by
  induction m with
  | nil =>
    simp only [RemoteMap.set, List.mem_singleton] at he
    exact Or.inr he
  | cons e1 rest ih =>
    obtain ⟨k1, v1⟩ := e1
    by_cases h : k1 = k
    · simp only [RemoteMap.set, h, if_true, List.mem_cons] at he
      rcases he with he | he
      · exact Or.inr he
      · exact Or.inl (List.mem_cons_of_mem _ he)
    · simp only [RemoteMap.set, h, if_false, List.mem_cons] at he
      rcases he with he | he
      · exact Or.inl (by rw [he]; exact List.mem_cons_self _ _)
      · rcases ih he with h1 | h1
        · exact Or.inl (List.mem_cons_of_mem _ h1)
        · exact Or.inr h1

theorem RemoteMap.mem_of_get (m : RemoteMap) (k : String) (v : Remote)
    (h : m.get k = some v) : (k, v) ∈ m := by
  induction m with
  | nil => simp [RemoteMap.get] at h
  | cons e rest ih =>
    obtain ⟨k1, v1⟩ := e
    by_cases hk : k1 = k
    · simp only [RemoteMap.get, hk, if_true, Option.some.injEq] at h
      rw [hk, h]; exact List.mem_cons_self _ _
    · simp only [RemoteMap.get, hk, if_false] at h
      exact List.mem_cons_of_mem _ (ih h)

theorem RemoteMap.KeyNamed.nil : RemoteMap.KeyNamed [] :=
  ⟨List.nodup_nil, fun _ h => by cases h⟩

theorem RemoteMap.KeyNamed.set {m : RemoteMap} (h : m.KeyNamed) (v : Remote) :
    (m.set v.Name v).KeyNamed := by
  constructor
  · rw [RemoteMap.keys_set]
    by_cases hk : v.Name ∈ m.keys
    · simp only [hk, if_true]; exact h.1
    · simp only [hk, if_false]
      rw [List.nodup_append]
      refine ⟨h.1, List.nodup_singleton _, ?_⟩
      intro a ha hb
      rw [List.mem_singleton] at hb
      subst hb
      exact hk ha
  · intro e he
    rcases RemoteMap.mem_set m v.Name v e he with h1 | h1
    · exact h.2 e h1
    · rw [h1]

theorem loadEntries_keyNamed (y : Yaml) (fs : FS) (dir : String) (files : List DirEntry) :
    ∀ (remoteData m : RemoteMap), remoteData.KeyNamed →
      loadEntries y fs dir files remoteData = .ok m → m.KeyNamed := by
  induction files with
  | nil =>
    intro remoteData m h hm
    simp only [loadEntries, Except.ok.injEq] at hm
    rw [← hm]; exact h
  | cons f files ih =>
    intro remoteData m h hm
    rw [loadEntries] at hm
    split at hm
    · exact ih _ _ h hm
    · split at hm
      · cases hm
      · split at hm
        · cases hm
        · split at hm
          · cases hm
          · exact ih _ _ (h.set _) hm

theorem replaceWrite_keyNamed (y : Yaml) (dir : String) (newRemotes : List ClusterMember) :
    ∀ (remoteData : RemoteMap) (fs : FS), remoteData.KeyNamed →
      (replaceWrite y dir newRemotes remoteData fs).2.1.KeyNamed := by
  induction newRemotes with
  | nil => intro remoteData fs h; exact h
  | cons member rest ih =>
    intro remoteData fs h
    rw [replaceWrite]
    split
    · exact h
    · split
      · exact h
      · split
        · exact h
        · split
          · exact h
          · exact ih _ _ (h.set ⟨⟨member.Name, member.Address⟩, member.Certificate⟩)

theorem Load_keyNamed (y : Yaml) (r : Remotes) (fs : FS) (dir : String)
    (h : r.data.KeyNamed) : (r.Load y fs dir).r.data.KeyNamed := by
  unfold Remotes.Load
  split
  · exact h
  · split
    · exact h
    · rename_i remoteData hload
      split
      · exact h
      · exact loadEntries_keyNamed y fs dir _ [] remoteData RemoteMap.KeyNamed.nil hload

theorem Add_keyNamed (y : Yaml) (dir : String) (remotes : List Remote) :
    ∀ (r : Remotes) (fs : FS), r.data.KeyNamed → (r.Add y fs dir remotes).r.data.KeyNamed := by
  induction remotes with
  | nil => intro r fs h; exact h
  | cons x xs ih =>
    intro r fs h
    cases hx : addRemote y dir r fs x with
    | error e => rw [Add_cons_error _ hx]; exact h
    | ok p =>
      obtain ⟨r1, fs1⟩ := p
      rw [Add_cons_ok _ hx]
      refine ih r1 fs1 ?_
      rw [addRemote_data hx]
      exact h.set x

theorem Replace_keyNamed (y : Yaml) (r : Remotes) (fs : FS) (dir : String)
    (newRemotes : List ClusterMember) (h : r.data.KeyNamed) :
    (r.Replace y fs dir newRemotes).r.data.KeyNamed := by
  have hw := replaceWrite_keyNamed y dir newRemotes [] fs RemoteMap.KeyNamed.nil
  unfold Remotes.Replace
  split
  · exact h
  · split
    · exact h
    · rename_i remoteData fs1 heq
      rw [heq] at hw
      split
      · exact h
      · split
        · exact h
        · split
          · exact h
          · exact hw

theorem Reachable.keyNamed {y : Yaml} {r : Remotes} (h : Reachable y r) : r.data.KeyNamed := by
  induction h with
  | empty => exact RemoteMap.KeyNamed.nil
  | Load r fs dir _ ih => exact Load_keyNamed y r fs dir ih
  | Add r fs dir remotes _ ih => exact Add_keyNamed y dir remotes r fs ih
  | Replace r fs dir newRemotes _ ih => exact Replace_keyNamed y r fs dir newRemotes ih

theorem AddrMap.set_of_not_mem (m : AddrMap) (k : String) (v : AddrPort)
    (h : k ∉ m.map Prod.fst) : m.set k v = m ++ [(k, v)] := by
  induction m with
  | nil => rfl
  | cons e rest ih =>
    obtain ⟨k1, v1⟩ := e
    simp only [List.map_cons, List.mem_cons, not_or] at h
    have h1 : ¬ k1 = k := fun h2 => h.1 h2.symm
    simp [AddrMap.set, h1, ih h.2]

theorem addressesLoop_keyNamed (rest : List (String × Remote)) :
    ∀ (done : List (String × Remote)), RemoteMap.KeyNamed (done ++ rest) →
      addressesLoop rest (done.map (fun e => (e.1, e.2.Address))) =
        (done ++ rest).map (fun e => (e.1, e.2.Address)) := by
  induction rest with
  | nil => intro done _; simp [addressesLoop]
  | cons e rest ih =>
    intro done h
    obtain ⟨k, v⟩ := e
    have hname : v.Name = k := h.2 (k, v) (by simp)
    have hfresh : k ∉ (done.map (fun e => (e.1, e.2.Address))).map Prod.fst := by
      have hnd := h.1
      simp only [RemoteMap.keys, List.map_append, List.map_cons] at hnd
      have := (List.nodup_append.1 hnd).2.2
      intro hk
      simp only [List.map_map, List.mem_map, Function.comp] at hk
      obtain ⟨a, ha, hak⟩ := hk
      exact this (List.mem_map.2 ⟨a, ha, hak⟩) (List.mem_cons_self _ _)
    rw [addressesLoop, hname, AddrMap.set_of_not_mem _ _ _ hfresh]
    have h2 : RemoteMap.KeyNamed ((done ++ [(k, v)]) ++ rest) := by
      simpa using h
    have := ih (done ++ [(k, v)]) h2
    simpa using this

theorem Addresses_keyNamed (r : Remotes) (h : r.data.KeyNamed) :
    r.Addresses = r.data.map (fun e => (e.1, e.2.Address)) := by
  have := addressesLoop_keyNamed r.data [] (by simpa using h)
  simpa [Remotes.Addresses] using this

/-- C18, the key and name invariant: in every store reachable from the empty
store by `Load`, `Add` and `Replace`, failed calls included, every key maps
to a record of that name and no key occurs twice; so `Addresses` and
`RemotesByName` have `Count` entries and the keys of the map. -/
theorem Reachable_key_name (y : Yaml) (r : Remotes) (h : Reachable y r) :
    (∀ k v, r.data.get k = some v → v.Name = k) ∧
    r.data.keys.Nodup ∧
    r.Addresses.length = r.Count ∧
    r.RemotesByName.length = r.Count ∧
    r.Addresses.map Prod.fst = r.data.keys ∧
    r.RemotesByName.keys = r.data.keys := by
  have hk := h.keyNamed
  refine ⟨fun k v hg => hk.2 (k, v) (RemoteMap.mem_of_get _ _ _ hg), hk.1, ?_, rfl, ?_, rfl⟩
  · rw [Addresses_keyNamed r hk]; simp [Remotes.Count]
  · rw [Addresses_keyNamed r hk]; simp [RemoteMap.keys]

/-- Witness of C18: the store after a `Replace` with two members and a failed
`Add`. -/
theorem Reachable_key_name_witness :
    Reachable sampleYaml
      ((Remotes.Replace sampleYaml ⟨[]⟩ emptyTrustDir "/trust"
        [memberOf "n1" "A", memberOf "n2" "B"]).r.Add sampleYaml emptyTrustDir "/trust"
        [remoteOf "n3" "C", remoteOf "n1" "A"]).r ∧
    ((Remotes.Replace sampleYaml ⟨[]⟩ emptyTrustDir "/trust"
        [memberOf "n1" "A", memberOf "n2" "B"]).r.Add sampleYaml emptyTrustDir "/trust"
        [remoteOf "n3" "C", remoteOf "n1" "A"]).r.Addresses.length =
      ((Remotes.Replace sampleYaml ⟨[]⟩ emptyTrustDir "/trust"
        [memberOf "n1" "A", memberOf "n2" "B"]).r.Add sampleYaml emptyTrustDir "/trust"
        [remoteOf "n3" "C", remoteOf "n1" "A"]).r.Count :=
  ⟨Reachable.Add _ _ _ _ (Reachable.Replace _ _ _ _ Reachable.empty),
    (Reachable_key_name sampleYaml _
      (Reachable.Add _ emptyTrustDir "/trust" [remoteOf "n3" "C", remoteOf "n1" "A"]
        (Reachable.Replace ⟨[]⟩ emptyTrustDir "/trust" [memberOf "n1" "A", memberOf "n2" "B"]
          Reachable.empty))).2.2.1⟩

/-! ## Claims on the statement registry -/

theorem StmtMap.set_fresh_code (m : StmtMap) (code : Int) (sql : String)
    (h : m.get code = none) : m.set code sql = m ++ [(code, sql)] := by
  induction m with
  | nil => rfl
  | cons e rest ih =>
    obtain ⟨c, t⟩ := e
    by_cases hc : c = code
    · simp [StmtMap.get, hc] at h
    · simp only [StmtMap.get, hc, if_false] at h
      simp [StmtMap.set, hc, ih h]

theorem StmtMap.get_append_single (m : StmtMap) (code c : Int) (sql : String) :
    StmtMap.get (m ++ [(code, sql)]) c =
      match m.get c with
      | some t => some t
      | none => if code = c then some sql else none := by
  induction m with
  | nil => simp [StmtMap.get]
  | cons e rest ih =>
    obtain ⟨c1, t1⟩ := e
    by_cases hc : c1 = c
    · simp [StmtMap.get, hc]
    · simp [StmtMap.get, hc, ih]

/-- The calls of `RegisterStmt` on a registry of `m.length` statements whose
codes are at most `m.length`: the codes returned count on from there, the
texts are found under them, and the other codes are found as before. -/
theorem registerAll_spec (sqls : List String) :
    ∀ (m : StmtMap), (∀ c : Int, (m.length : Int) < c → m.get c = none) →
      ∃ m1, (registerAll sqls (some m)).2 = some m1 ∧
        (registerAll sqls (some m)).1 =
          (List.range sqls.length).map (fun (i : Nat) => (m.length : Int) + (i : Int) + 1) ∧
        m1.length = m.length + sqls.length ∧
        (∀ i (hi : i < sqls.length),
          m1.get ((m.length : Int) + (i : Int) + 1) = some (sqls.get ⟨i, hi⟩)) ∧
        (∀ c : Int, (c ≤ (m.length : Int) ∨ (m.length : Int) + (sqls.length : Int) < c) →
          m1.get c = m.get c) := by
  induction sqls with
  | nil =>
    intro m _
    exact ⟨m, rfl, rfl, rfl, fun i hi => absurd hi (Nat.not_lt_zero i), fun _ _ => rfl⟩
  | cons sql rest ih =>
    intro m hm
    have hfresh : m.get ((m.length : Int) + 1) = none := hm _ (by omega)
    have hreg : RegisterStmt (some m) sql =
        ((m.length : Int) + 1, some (m ++ [((m.length : Int) + 1, sql)])) := by
      simp [RegisterStmt, StmtMap.set_fresh_code _ _ _ hfresh]
    have hm2 : ∀ c : Int, ((m ++ [((m.length : Int) + 1, sql)]).length : Int) < c →
        StmtMap.get (m ++ [((m.length : Int) + 1, sql)]) c = none := by
      intro c hc
      simp only [List.length_append, List.length_singleton, Nat.cast_add, Nat.cast_one] at hc
      rw [StmtMap.get_append_single, hm c (by omega)]
      have hne : ¬ (m.length : Int) + 1 = c := by omega
      simp [hne]
    obtain ⟨m1, h1, h2, h3, h4, h5⟩ := ih (m ++ [((m.length : Int) + 1, sql)]) hm2
    simp only [List.length_append, List.length_singleton, Nat.cast_add, Nat.cast_one] at h2 h3 h4 h5
    refine ⟨m1, ?_, ?_, ?_, ?_, ?_⟩
    · simp only [registerAll, hreg]; exact h1
    · simp only [registerAll, hreg, h2, List.length_cons, List.range_succ_eq_map, List.map_cons,
        List.map_map]
      refine congrArg₂ _ (by simp) ?_
      apply List.map_congr_left
      intro i _
      simp only [Function.comp, Nat.cast_succ]
      omega
    · rw [h3]; simp only [List.length_cons]; omega
    · intro i hi
      cases i with
      | zero =>
        have := h5 ((m.length : Int) + 1) (Or.inl (by omega))
        simp only [Nat.cast_zero, add_zero, List.get_eq_getElem, List.getElem_cons_zero]
        rw [this, StmtMap.get_append_single, hfresh]
        simp
      | succ k =>
        have hk : k < rest.length := by simpa using hi
        have := h4 k hk
        simp only [Nat.cast_succ, List.get_eq_getElem, List.getElem_cons_succ] at this ⊢
        rw [← this]
        congr 1
        omega
    · intro c hc
      simp only [List.length_cons, Nat.cast_succ] at hc
      rw [h5 c (by omega), StmtMap.get_append_single]
      have hne : ¬ (m.length : Int) + 1 = c := by omega
      cases m.get c <;> simp [hne]

/-- C16, unique registration codes: in a sequence of calls of `RegisterStmt`
from the empty registry the call number `i + 1` returns the code `i + 1`, so
the codes are pairwise different; afterwards `StmtString` of that code
returns the text passed to that call, and `StmtString` of a code that no
call returned fails. -/
theorem RegisterStmt_codes (sqls : List String) :
    (registerAll sqls (some [])).1 = (List.range sqls.length).map (fun (i : Nat) => (i : Int) + 1) ∧
    (registerAll sqls (some [])).1.Nodup ∧
    (∀ i (hi : i < sqls.length),
      StmtString (registerAll sqls (some [])).2 ((i : Int) + 1) = .ok (sqls.get ⟨i, hi⟩)) ∧
    (∀ code : Int, code ∉ (registerAll sqls (some [])).1 →
      StmtString (registerAll sqls (some [])).2 code = .error (StmtError.notRegistered code)) := by
  obtain ⟨m1, h1, h2, _, h4, h5⟩ := registerAll_spec sqls [] (fun _ _ => rfl)
  simp only [List.length_nil, Nat.cast_zero, zero_add] at h2 h4 h5
  have hcodes : ∀ code : Int, code ∈ (registerAll sqls (some [])).1 ↔
      (1 ≤ code ∧ code ≤ (sqls.length : Int)) := by
    intro code
    rw [h2, List.mem_map]
    constructor
    · rintro ⟨i, hi, rfl⟩
      have := List.mem_range.1 hi
      omega
    · intro hc
      refine ⟨(code - 1).toNat, List.mem_range.2 (by omega), by omega⟩
  refine ⟨h2, ?_, ?_, ?_⟩
  · rw [h2]
    refine List.Nodup.map ?_ (List.nodup_range _)
    intro a b hab
    simp only at hab
    omega
  · intro i hi
    simp [StmtString, h1, h4 i hi]
  · intro code hcode
    have hout : code ≤ 0 ∨ (sqls.length : Int) < code := by
      by_contra hc
      exact hcode ((hcodes code).2 (by omega))
    have := h5 code hout
    simp [StmtString, h1, this, StmtMap.get]

/-- Witness of C16: three registrations, two of them of the same text. -/
theorem RegisterStmt_codes_witness :
    (registerAll ["SELECT 1", "SELECT 2", "SELECT 1"] (some [])).1 = [1, 2, 3] ∧
    StmtString (registerAll ["SELECT 1", "SELECT 2", "SELECT 1"] (some [])).2 3 = .ok "SELECT 1" ∧
    StmtString (registerAll ["SELECT 1", "SELECT 2", "SELECT 1"] (some [])).2 4 =
      .error (StmtError.notRegistered 4) := by
  have w := RegisterStmt_codes ["SELECT 1", "SELECT 2", "SELECT 1"]
  refine ⟨w.1.trans (by decide), w.2.2.1 2 (by decide), w.2.2.2 4 (by decide)⟩

/-! ## Claims on `Cluster` -/

theorem clusterLoop_ok {Client CertInfo : Type} (n : Netip)
    (New : URL → CertInfo → Option Certificate → Bool → Except String Client)
    (isNotification : Bool) (serverCert : CertInfo) (publicKey : Option Certificate)
    (visit : List (String × AddrPort)) :
    ∀ (done built : List Client),
      List.Forall₂ (fun e c =>
        New ⟨"https", e.2.String n⟩ serverCert publicKey isNotification = .ok c) visit built →
      clusterLoop n New isNotification serverCert publicKey visit done = .ok (done ++ built) := by
  induction visit with
  | nil => intro done built h; cases h; simp [clusterLoop]
  | cons e rest ih =>
    intro done built h
    obtain ⟨k, addr⟩ := e
    cases h with
    | cons hc hrest =>
      rename_i c builtRest
      simp only at hc
      rw [clusterLoop, hc]
      have := ih (done ++ [c]) builtRest hrest
      simpa using this

theorem clusterLoop_error {Client CertInfo : Type} (n : Netip)
    (New : URL → CertInfo → Option Certificate → Bool → Except String Client)
    (isNotification : Bool) (serverCert : CertInfo) (publicKey : Option Certificate)
    (pre : List (String × AddrPort)) (e : String × AddrPort) (post : List (String × AddrPort))
    (err : String)
    (he : New ⟨"https", e.2.String n⟩ serverCert publicKey isNotification = .error err) :
    ∀ (done : List Client),
      (∀ x ∈ pre, ∃ c, New ⟨"https", x.2.String n⟩ serverCert publicKey isNotification = .ok c) →
      clusterLoop n New isNotification serverCert publicKey (pre ++ e :: post) done = .err err := by
  induction pre with
  | nil =>
    intro done _
    obtain ⟨k, addr⟩ := e
    simp only at he
    simp [clusterLoop, he]
  | cons x pre ih =>
    intro done hpre
    obtain ⟨c, hc⟩ := hpre x (List.mem_cons_self _ _)
    obtain ⟨k, addr⟩ := x
    simp only at hc
    simp only [List.cons_append, clusterLoop, hc]
    exact ih _ (fun z hz => hpre z (List.mem_cons_of_mem _ hz))

theorem exists_built {Client CertInfo : Type} (n : Netip)
    (New : URL → CertInfo → Option Certificate → Bool → Except String Client)
    (isNotification : Bool) (serverCert : CertInfo) (publicKey : Option Certificate)
    (visit : List (String × AddrPort))
    (h : ∀ x ∈ visit, ∃ c,
      New ⟨"https", x.2.String n⟩ serverCert publicKey isNotification = .ok c) :
    ∃ built, List.Forall₂ (fun e c =>
      New ⟨"https", e.2.String n⟩ serverCert publicKey isNotification = .ok c) visit built := by
  induction visit with
  | nil => exact ⟨[], List.Forall₂.nil⟩
  | cons x visit ih =>
    obtain ⟨c, hc⟩ := h x (List.mem_cons_self _ _)
    obtain ⟨built, hb⟩ := ih (fun z hz => h z (List.mem_cons_of_mem _ hz))
    exact ⟨c :: built, List.Forall₂.cons hc hb⟩

/-- On a store that holds at least one remote, in whatever order `range`
visits the addresses: when the constructor succeeds for every address
`Cluster` returns one client per entry of `Addresses`, each built for the
`https` URL of the address with the given certificate, key and flag, and
there are `Count` of them in a reachable store; when the constructor fails
for an address after addresses for which it succeeds, `Cluster` returns the
nil slice with that error. -/
theorem Cluster_of_nonempty {Client CertInfo : Type} (y : Yaml) (n : Netip)
    (New : URL → CertInfo → Option Certificate → Bool → Except String Client)
    (r : Remotes) (visit : List (String × AddrPort))
    (isNotification : Bool) (serverCert : CertInfo) (publicKey : Option Certificate)
    (hcount : r.Count ≠ 0) (hvisit : visit.Perm r.Addresses) :
    ((∀ x ∈ r.Addresses, ∃ c,
        New ⟨"https", x.2.String n⟩ serverCert publicKey isNotification = .ok c) →
      ∃ cluster, r.Cluster n New visit isNotification serverCert publicKey = .ok cluster ∧
        List.Forall₂ (fun e c =>
          New ⟨"https", e.2.String n⟩ serverCert publicKey isNotification = .ok c)
          visit cluster ∧
        cluster.length = r.Addresses.length ∧
        (Reachable y r → cluster.length = r.Count)) ∧
    (∀ pre e post err, visit = pre ++ e :: post →
      (∀ x ∈ pre, ∃ c,
        New ⟨"https", x.2.String n⟩ serverCert publicKey isNotification = .ok c) →
      New ⟨"https", e.2.String n⟩ serverCert publicKey isNotification = .error err →
      r.Cluster n New visit isNotification serverCert publicKey = .err err) := by
  have hcap : ¬ r.clusterCap < 0 := by
    have : 0 < r.Count := Nat.pos_of_ne_zero hcount
    simp only [Remotes.clusterCap]
    omega
  constructor
  · intro hall
    obtain ⟨built, hb⟩ := exists_built n New isNotification serverCert publicKey visit
      (fun x hx => hall x (hvisit.mem_iff.1 hx))
    have hlen : built.length = r.Addresses.length := by
      rw [← hb.length_eq, hvisit.length_eq]
    refine ⟨built, ?_, hb, hlen, fun hreach => ?_⟩
    · have := clusterLoop_ok n New isNotification serverCert publicKey visit [] built hb
      simpa [Remotes.Cluster, hcap] using this
    · rw [hlen, Addresses_keyNamed r hreach.keyNamed]; simp [Remotes.Count]
  · intro pre e post err heq hpre he
    subst heq
    simp only [Remotes.Cluster, hcap, if_false]
    exact clusterLoop_error n New isNotification serverCert publicKey pre e post err he [] hpre

/-- The store with two remotes at different addresses: `Cluster` returns a
client for each of the two addresses, also when `range` visits them in the
other order. -/
theorem Cluster_of_nonempty_witness :
    storeTwo.Count ≠ 0 ∧
    storeTwo.Cluster sampleNetip sampleNew storeTwo.Addresses true "server" none =
      .ok [(⟨"https", "10.0.0.1:8443"⟩, true), (⟨"https", "10.0.0.2:8443"⟩, true)] ∧
    (∃ cluster : List (URL × Bool),
      storeTwo.Cluster sampleNetip sampleNew storeTwo.Addresses.reverse true "server" none =
        .ok cluster ∧ cluster.length = storeTwo.Addresses.length) := by
  have w := Cluster_of_nonempty sampleYaml sampleNetip sampleNew storeTwo
    storeTwo.Addresses.reverse true "server" none (by decide) (List.reverse_perm _)
  refine ⟨by decide, by decide, ?_⟩
  have hall : ∀ x ∈ storeTwo.Addresses, ∃ c,
      sampleNew ⟨"https", x.2.String sampleNetip⟩ "server" none true = .ok c := by
    intro x hx
    have hx2 : x = ("n1", sampleAddr 1) ∨ x = ("n2", sampleAddr 2) := by
      have : storeTwo.Addresses = [("n1", sampleAddr 1), ("n2", sampleAddr 2)] := by decide
      rw [this] at hx
      simpa using hx
    rcases hx2 with rfl | rfl
    · exact ⟨(⟨"https", "10.0.0.1:8443"⟩, true), by decide⟩
    · exact ⟨(⟨"https", "10.0.0.2:8443"⟩, true), by decide⟩
  obtain ⟨cluster, h1, _, h3, _⟩ := w.1 hall
  exact ⟨cluster, h1, h3⟩

/-- C13, evaluated where the code departs from it: on the store without
remotes, which `Load` of an empty directory leaves, there is no address, so
the constructor fails for none; `Cluster` does not return the empty list of
clients but panics in `make`. -/
theorem Cluster_empty_store_returns_no_list :
    (Remotes.Load sampleYaml ⟨[]⟩ emptyTrustDir "/trust") = ⟨none, ⟨[]⟩, emptyTrustDir⟩ ∧
    (⟨[]⟩ : Remotes).Addresses = [] ∧
    (⟨[]⟩ : Remotes).Cluster sampleNetip sampleNew (⟨[]⟩ : Remotes).Addresses true "server" none ≠
      .ok [] ∧
    ¬ ∃ cluster, (⟨[]⟩ : Remotes).Cluster sampleNetip sampleNew (⟨[]⟩ : Remotes).Addresses
      true "server" none = .ok cluster := by
  refine ⟨by decide, by decide, by decide, ?_⟩
  rintro ⟨cluster, h⟩
  have hp : (⟨[]⟩ : Remotes).Cluster sampleNetip sampleNew (⟨[]⟩ : Remotes).Addresses
      true "server" none = .panic "runtime error: makeslice: cap out of range" := by decide
  rw [hp] at h
  cases h

/-- C20, evaluated where the code departs from it: for the store without
remotes `Count` is 0, the capacity `Count()-1` passed to `make` is -1, and
`Cluster` ends in the run-time panic of `make`, whatever the constructor and
the flag. -/
theorem Cluster_panics_without_remotes :
    (⟨[]⟩ : Remotes).Count = 0 ∧
    (⟨[]⟩ : Remotes).clusterCap = -1 ∧
    (⟨[]⟩ : Remotes).Cluster sampleNetip sampleNew [] false "server" none =
      .panic "runtime error: makeslice: cap out of range" ∧
    (⟨[]⟩ : Remotes).Cluster sampleNetip
      (fun url (_ : String) (_ : Option Certificate) (_ : Bool) =>
        (.ok url : Except String URL)) [] true "server" (some ⟨"A"⟩) =
      .panic "runtime error: makeslice: cap out of range" := by
  decide

/-- A call of `Cluster` panics exactly when the store holds no remote. -/
theorem Cluster_panic_iff {Client CertInfo : Type} (n : Netip)
    (New : URL → CertInfo → Option Certificate → Bool → Except String Client)
    (r : Remotes) (visit : List (String × AddrPort))
    (isNotification : Bool) (serverCert : CertInfo) (publicKey : Option Certificate) :
    (∃ msg, r.Cluster n New visit isNotification serverCert publicKey = .panic msg) ↔
      r.Count = 0 := by
  constructor
  · rintro ⟨msg, h⟩
    by_contra hc
    have hcap : ¬ r.clusterCap < 0 := by
      have : 0 < r.Count := Nat.pos_of_ne_zero hc
      simp only [Remotes.clusterCap]
      omega
    simp only [Remotes.Cluster, hcap, if_false] at h
    have hno : ∀ (vs : List (String × AddrPort)) (done : List Client),
        clusterLoop n New isNotification serverCert publicKey vs done ≠ .panic msg := by
      intro vs
      induction vs with
      | nil => intro done hd; simp [clusterLoop] at hd
      | cons v vs ih =>
        intro done hd
        obtain ⟨k, addr⟩ := v
        rw [clusterLoop] at hd
        split at hd
        · cases hd
        · exact ih _ hd
    exact hno visit [] h
  · intro h0
    have hcap : r.clusterCap < 0 := by
      simp only [Remotes.clusterCap, h0]
      decide
    exact ⟨"runtime error: makeslice: cap out of range", by simp [Remotes.Cluster, hcap]⟩

end Trust
